import Mathlib

/-!
# Verification of the SBE `$group` stage builder (`gen_group.cpp`)

This file gives a shallow embedding of the group-stage compiler found in
`src/mongo/db/query/stage_builder/sbe/gen_group.cpp` and proves properties
about it.  External collaborators (the generic expression compiler
`generateExpression`, the accumulator-operator catalog `AccumOp`, the sort-key
planner `makeSortKeysPlan` / `buildSortKeys`, the stage constructors) are
modelled as parameters or as abstract data carried by the embedded structures;
the control flow of every function defined here is translated directly from
the C++ source.
-/

namespace GenGroup

/-- SBE slot identifiers (`sbe::value::SlotId`). -/
abbrev SlotId := Nat

/-- Runtime values flowing through SBE slots (only the fragment needed here:
`Nothing`, `Null`, booleans, numbers and strings). -/
inductive Value where
  | nothing : Value
  | null : Value
  | bool (b : Bool) : Value
  | num (n : Int) : Value
  | str (s : String) : Value
deriving DecidableEq, Repr

/-- Shallow embedding of SBE expressions (`SbExpr`): the constructors used by
the group stage builder.  `fillEmptyNull e` is `makeFillEmptyNull(e)`
(i.e. `(e ?: null)`), `eif` is `makeIf`, `fail` is `makeFail`, `func` is
`makeFunction`. -/
inductive SbExpr where
  | slotRef (s : SlotId) : SbExpr
  | constant (v : Value) : SbExpr
  | strConst (s : String) : SbExpr
  | fillEmptyNull (e : SbExpr) : SbExpr
  | func (name : String) (args : List SbExpr) : SbExpr
  | eif (cond thn els : SbExpr) : SbExpr
  | fail (code : Nat) (msg : String) : SbExpr
deriving Repr

/-- Numeric value of `ErrorCodes::BadValue`. -/
def badValueCode : Nat := 2

/-- The information carried by an `ExpressionFieldPath` node that this
translation unit inspects: whether the path's variable is `$$ROOT`/`$$CURRENT`
(`getVariableId() == Variables::kRootId`), whether it refers to some other
variable (`isVariableReference()`), and the components of the field path
(including the leading `CURRENT`, so `getPathLength()` is the list length). -/
structure FieldPathInfo where
  varIsRoot : Bool
  isVarRef : Bool
  components : List String
deriving DecidableEq, Repr

/-- Shallow embedding of the MQL `Expression` tree, with the shapes the group
builder distinguishes: field paths, object expressions
(`ExpressionObject`, with children in declaration order), constants, and a
generic interior node for every other expression kind. -/
inductive MQLExpr where
  | fieldPathE (info : FieldPathInfo) : MQLExpr
  | objE (fields : List (String × MQLExpr)) : MQLExpr
  | constE (isObject : Bool) : MQLExpr
  | opE (children : List MQLExpr) : MQLExpr
deriving Repr

/-- `dynamic_cast<ExpressionObject*>` test. -/
def MQLExpr.isObj : MQLExpr → Bool
  | .objE _ => true
  | _ => false

/-!
## Group-Key Compiler (`generateGroupByKeyExprs`, lines 307–337)

The external `generateExpression` is modelled as a function parameter
`gen : MQLExpr → SbExpr`.
-/

/-- Embedding of `generateGroupByKeyExprs`.  If the `_id` expression is an
`ExpressionObject`, each child expression is compiled in declaration order,
and — emulating the classic engine (see the SERVER-21992 comment in the
source) — when the object has exactly one field the sole compiled expression
is wrapped with `makeFillEmptyNull`.  Otherwise (single non-object key) the
compiled key is always wrapped with `makeFillEmptyNull`. -/
def generateGroupByKeyExprs (gen : MQLExpr → SbExpr) (idExpr : MQLExpr) :
    List SbExpr :=
  match idExpr with
  | .objE fields =>
    let exprs := fields.map (fun p => gen p.2)
    match exprs with
    | [e] => [SbExpr.fillEmptyNull e]
    | _ => exprs
  | e => [SbExpr.fillEmptyNull (gen e)]

/-!
## Expression walker (`walkAndActOnFieldPaths`)

The external `ExpressionWalker` visits every node of an expression tree; the
pre-visitor fires on each `ExpressionFieldPath`.  `walkFieldPaths` returns
the field paths of an expression in visit order.
-/

mutual

def walkFieldPaths : MQLExpr → List FieldPathInfo
  | .fieldPathE info => [info]
  | .constE _ => []
  | .objE fields => walkFieldPathsObj fields
  | .opE children => walkFieldPathsList children

def walkFieldPathsObj : List (String × MQLExpr) → List FieldPathInfo
  | [] => []
  | (_, e) :: rest => walkFieldPaths e ++ walkFieldPathsObj rest

def walkFieldPathsList : List MQLExpr → List FieldPathInfo
  | [] => []
  | e :: rest => walkFieldPaths e ++ walkFieldPathsList rest

end

/-!
## Accumulator-operator catalog and plan-node data model

`AccumOp` is the external accumulator-operator abstraction
(`gen_accumulator.h`); its behavior is carried as abstract data: capability
probes, the expression lists its builders return, and whether its builders
succeed.
-/

/-- Sort pattern of an order-sensitive accumulator: (field path, ascending)
parts in order. -/
structure SortPattern where
  parts : List (String × Bool)
deriving DecidableEq, Repr

/-- `BuildSortKeysPlan::Type`. -/
inductive SortKeysPlanType where
  | kTraverseFields
  | kCallGenCheapSortKey
deriving DecidableEq, Repr

/-- Result of the external `makeSortKeysPlan`. -/
structure SortKeysPlan where
  type : SortKeysPlanType
  fieldsForSortKeys : List String
  needsResultObj : Bool
deriving Repr

/-- Result of the external `buildSortKeys`. -/
structure SortKeys where
  keyExprs : List SbExpr
  parallelArraysCheckExpr : Option SbExpr
  fullKeyExpr : SbExpr
deriving Repr

/-- Abstract model of one accumulator operator (`AccumOp`).  The fields record
the answers of the capability probes and the (externally computed) results of
the operator's expression builders. -/
structure AccumOp where
  /-- `getNumAggs()`: number of internal aggregates of this operator. -/
  numAggs : Nat
  /-- `hasBuildAddBlockExprs()` capability probe. -/
  hasBuildAddBlockExprs : Bool
  /-- `hasBuildAddBlockAggs()` capability probe. -/
  hasBuildAddBlockAggs : Bool
  /-- Whether `buildAddExprs` returns non-null inputs (scalar path). -/
  addExprsOk : Bool
  /-- Whether `buildAddBlockExprs` succeeds (block path). -/
  addBlockExprsOk : Bool
  /-- `AddBlockExprs::exprs` produced by `buildAddBlockExprs` on success. -/
  blockArgExprs : List SbExpr
  /-- The row agg expressions returned by `buildAddAggs`. -/
  addAggs : List SbExpr
  /-- The (blockAgg, rowAgg) pairs returned by `buildAddBlockAggs`, or
  `none` when the operator cannot produce block aggs. -/
  addBlockAggs : Option (List (SbExpr × SbExpr))
  /-- The init expressions returned by `buildInitialize`. -/
  inits : List SbExpr
  /-- `buildFinalize` over the statement's slice of aggregate-output slots;
  `none` means the final step is trivial and the raw slot is forwarded. -/
  finalize : List SlotId → Option SbExpr
  /-- `buildCombineAggs` over the freshly allocated spill-recovery slots. -/
  combineAggs : List SlotId → List SbExpr

/-- One accumulation statement of a `GroupNode` (`AccumulationStatement`). -/
structure AccumulationStatement where
  /-- The output field name of this statement. -/
  fieldName : String
  /-- The accumulator operator of this statement. -/
  op : AccumOp
  /-- The argument expression. -/
  argument : MQLExpr
  /-- `ExpressionConstant::isNullOrConstant(expr.initializer)`. -/
  initIsNullOrConstant : Bool
  /-- `getSortPattern(accStmt)`: the sort pattern, when the statement's
  operator belongs to the order-sensitive `$top`/`$bottom` family. -/
  sortPattern : Option SortPattern

/-- The logical `$group` plan node (`GroupNode`). -/
structure GroupNode where
  groupByExpression : MQLExpr
  accumulators : List AccumulationStatement
  willBeMerged : Bool
  needWholeDocument : Bool
  /-- `requiredFields`: dotted paths referenced by the group node, as
  component lists. -/
  requiredFields : List (List String)
  shouldProduceBson : Bool

/-- The mutable compilation state this core touches: the caller-scoped
`needsMerge` flag and the process-wide slot-id generator. -/
structure StageBuilderState where
  needsMerge : Bool
  nextSlotId : SlotId
deriving DecidableEq, Repr

/-!
## Requirement Projector (`computeChildReqsForGroup`, lines 70–117)
-/

/-- The fragment of `PlanStageReqs` that `computeChildReqsForGroup`
manipulates: the materialized-result-object requirement and the set of named
field requirements. -/
structure PlanStageReqs where
  resultObj : Bool
  fields : List String
deriving DecidableEq, Repr

/-- `PlanStageReqs::setFields`: adds the given field names as requirements. -/
def PlanStageReqs.setFields (r : PlanStageReqs) (fs : List String) :
    PlanStageReqs :=
  { r with fields := r.fields ++ fs }

/-- `getTopLevelField(path)`: the first dotted component of a path.  Dotted
paths are modelled as their component lists (as in the C++ `FieldPath`). -/
def getTopLevelField (path : List String) : String :=
  path.headD ""

/-- `getTopLevelFields(paths)`: the deduplicated top-level fields of a set of
paths. -/
def getTopLevelFields (paths : List (List String)) : List String :=
  (paths.map getTopLevelField).dedup

/-- One iteration of the accumulator loop in `computeChildReqsForGroup`
(lines 91–107): for an order-sensitive accumulator, add the fields its
sort-key plan needs and record whether the plan needs the result object. -/
def childReqsSortKeysStep (mkPlan : SortPattern → SortKeysPlan)
    (acc : PlanStageReqs × Bool) (accStmt : AccumulationStatement) :
    PlanStageReqs × Bool :=
  match accStmt.sortPattern with
  | some sp =>
    let plan := mkPlan sp
    let r :=
      if plan.fieldsForSortKeys.isEmpty then acc.1
      else acc.1.setFields plan.fieldsForSortKeys
    (r, acc.2 || plan.needsResultObj)
  | none => acc

/-- Whether an accumulator's sort-key plan needs the materialized result
object (`plan.needsResultObj` for statements with a sort pattern). -/
def sortKeyNeedsResultObj (mkPlan : SortPattern → SortKeysPlan)
    (accStmt : AccumulationStatement) : Bool :=
  match accStmt.sortPattern with
  | some sp => (mkPlan sp).needsResultObj
  | none => false

/-- The first part of `computeChildReqsForGroup` (lines 74–82):
`reqs.copyForChild().setResultObj().clearAllFields()`, then the top-level
fields referenced by the group node are added unconditionally. -/
def childReqsBase (reqs : PlanStageReqs) (g : GroupNode) : PlanStageReqs :=
  let childReqs : PlanStageReqs := { reqs with resultObj := true, fields := [] }
  let topLevelFields := getTopLevelFields g.requiredFields
  if topLevelFields.isEmpty then childReqs
  else childReqs.setFields topLevelFields

/-- Embedding of `computeChildReqsForGroup`.  The external `makeSortKeysPlan`
is the parameter `mkPlan`. -/
def computeChildReqsForGroup (mkPlan : SortPattern → SortKeysPlan)
    (reqs : PlanStageReqs) (g : GroupNode) : PlanStageReqs :=
  let childReqs := childReqsBase reqs g
  if !g.needWholeDocument then
    let scan := g.accumulators.foldl (childReqsSortKeysStep mkPlan)
      (childReqs, false)
    if !scan.2 then { scan.1 with resultObj := false } else scan.1
  else childReqs

/-!
## Path-expression cache (`collectFieldPaths`, lines 119–149)
-/

/-- `getFieldPathWithoutCurrentPrefix().fullPath()`. -/
def fieldPathWithoutCurrentPrefix (info : FieldPathInfo) : String :=
  String.intercalate "." (info.components.drop 1)

/-- The body of the `accumulateFieldPaths` lambda inside
`collectFieldPaths`, acting on one visited `ExpressionFieldPath`. -/
def accumulateFieldPath (m : List (String × FieldPathInfo))
    (e : FieldPathInfo) : List (String × FieldPathInfo) :=
  -- We optimize neither a field path for the top-level document itself nor a
  -- field path that refers to a variable instead.
  if e.components.length = 1 || e.isVarRef then m
  else
    let fp := fieldPathWithoutCurrentPrefix e
    -- Don't generate an expression if we have one already.
    if m.any (fun p => p.1 = fp) then m
    -- Neither if it's a top level field which already have a slot.
    else if e.components.length ≠ 2 then m ++ [(fp, e)]
    else m

/-- Embedding of `collectFieldPaths`: walk the groupBy expression and every
accumulator argument, accumulating qualifying paths into the cache. -/
def collectFieldPaths (g : GroupNode) : List (String × FieldPathInfo) :=
  (walkFieldPaths g.groupByExpression ++
    g.accumulators.flatMap (fun accStmt => walkFieldPaths accStmt.argument)).foldl
    accumulateFieldPath []

/-!
## Path Expression Materializer (`makePathExprsAvailableInSlots`,
`partitionFieldPathExprsByBlock`, `projectFieldPathsToPathExprSlots`,
lines 151–305)

The SBE stage tree is modelled as the list of stage operations appended by
this core, and `PlanStageSlots` as the data these functions inspect: the
block-output flag, the type signatures of the per-field slots, and the
`kPathExpr` slot bindings.
-/

/-- Stage operations appended by the path materializer. -/
inductive StageOp where
  | project (paths : List String)
  | blockToRow
deriving DecidableEq, Repr

/-- The fragment of `PlanStageSlots` used by the path materializer. -/
structure PlanStageSlots where
  /-- `hasBlockOutput()`. -/
  hasBlockOutput : Bool
  /-- Whether the `kField` slot of a top-level field has a block/cell type
  signature. -/
  fieldIsBlock : String → Bool
  /-- The `kPathExpr` slot bindings. -/
  pathExprSlots : String → Option SlotId

/-- `doesExpressionReferenceBlock`: a path expression references a block when
its variable is `$$ROOT` and the `kField` slot of its top-level field (path
component at index 1) has a block/cell type signature. -/
def doesExpressionReferenceBlock (outputs : PlanStageSlots)
    (e : FieldPathInfo) : Bool :=
  e.varIsRoot && outputs.fieldIsBlock (e.components.getD 1 "")

/-- Embedding of `partitionFieldPathExprsByBlock`: splits the path-expression
cache into (exprsOnBlockSlots, exprsOnScalarSlots). -/
def partitionFieldPathExprsByBlock (outputs : PlanStageSlots)
    (groupFieldMapIn : List (String × FieldPathInfo)) :
    List (String × FieldPathInfo) × List (String × FieldPathInfo) :=
  (groupFieldMapIn.filter (fun p => doesExpressionReferenceBlock outputs p.2),
   groupFieldMapIn.filter (fun p => !doesExpressionReferenceBlock outputs p.2))

/-- Embedding of `projectFieldPathsToPathExprSlots`: if the map is non-empty,
appends one `ProjectStage` evaluating every path in the map and binds each
path to its fresh output slot under a `kPathExpr` name. -/
def projectFieldPathsToPathExprSlots (state : StageBuilderState)
    (stage : List StageOp) (outputs : PlanStageSlots)
    (groupFieldMap : List (String × FieldPathInfo)) :
    StageBuilderState × List StageOp × PlanStageSlots :=
  if groupFieldMap.isEmpty then (state, stage, outputs)
  else
    let n := groupFieldMap.length
    let slots := (List.range n).map (fun i => state.nextSlotId + i)
    let st := { state with nextSlotId := state.nextSlotId + n }
    let outputs2 := { outputs with
      pathExprSlots := (groupFieldMap.zip slots).foldl
        (fun m p => fun x => if x = p.1.1 then some p.2 else m x)
        outputs.pathExprSlots }
    (st, stage ++ [StageOp.project (groupFieldMap.map (fun p => p.1))],
     outputs2)

/-- The external `buildBlockToRow`: closes the block pipeline (every slot
becomes scalar). -/
def buildBlockToRow (stage : List StageOp) (outputs : PlanStageSlots) :
    List StageOp × PlanStageSlots :=
  (stage ++ [StageOp.blockToRow],
   { outputs with hasBlockOutput := false, fieldIsBlock := fun _ => false })

/-- Embedding of `makePathExprsAvailableInSlots`. -/
def makePathExprsAvailableInSlots (state : StageBuilderState)
    (stage : List StageOp) (outputs : PlanStageSlots)
    (groupFieldMapIn : List (String × FieldPathInfo)) :
    StageBuilderState × List StageOp × PlanStageSlots :=
  if groupFieldMapIn.isEmpty then
    -- No work to do.
    (state, stage, outputs)
  else if outputs.hasBlockOutput then
    -- First compute the field path expressions for expressions on scalars,
    -- before closing the block processing pipeline.
    let parts := partitionFieldPathExprsByBlock outputs groupFieldMapIn
    let blockFieldPathExprs := parts.1
    let nonBlockFieldPathExprs := parts.2
    let step1 :=
      projectFieldPathsToPathExprSlots state stage outputs nonBlockFieldPathExprs
    if blockFieldPathExprs.isEmpty then
      -- No block field path exprs: don't close the block pipeline.
      step1
    else
      let step2 := buildBlockToRow step1.2.1 step1.2.2
      projectFieldPathsToPathExprSlots step1.1 step2.1 step2.2
        blockFieldPathExprs
  else
    projectFieldPathsToPathExprSlots state stage outputs groupFieldMapIn

/-!
## Merge expressions (`generateMergingExpressions`,
`generateAllMergingExprs`, lines 761–830)
-/

/-- Embedding of `generateMergingExpressions`: allocates `numInputSlots`
fresh spill-recovery slots, builds the merging expressions over them, checks
the counts agree (tassert 7039550), and zips them into pairs. -/
def generateMergingExpressions (state : StageBuilderState)
    (accStmt : AccumulationStatement) (numInputSlots : Nat) :
    Except String (StageBuilderState × List (SbExpr × SlotId)) :=
  if numInputSlots = 0 then .error "7039555: numInputSlots must be positive"
  else
    let spillSlots := (List.range numInputSlots).map
      (fun i => state.nextSlotId + i)
    let st := { state with nextSlotId := state.nextSlotId + numInputSlots }
    let mergingExprs := accStmt.op.combineAggs spillSlots
    if spillSlots.length = mergingExprs.length then
      .ok (st, mergingExprs.zip spillSlots)
    else .error "7039550: expected same number of slots and input exprs"

/-- Embedding of `generateAllMergingExprs`: one merge-entry vector per
accumulation statement, each sized by the operator's `getNumAggs()`. -/
def generateAllMergingExprs (state : StageBuilderState) :
    List AccumulationStatement →
    Except String (StageBuilderState × List (List (SbExpr × SlotId)))
  | [] => .ok (state, [])
  | accStmt :: rest =>
    match generateMergingExpressions state accStmt accStmt.op.numAggs with
    | .error e => .error e
    | .ok (st, v) =>
      match generateAllMergingExprs st rest with
      | .error e => .error e
      | .ok (st2, vs) => .ok (st2, v :: vs)

/-!
## Accumulator agg generation and the columnar/row decision
(`generateAccumAggs`, `generateAllAccumAggs`, `generateAllAccumExprs`,
`generateAllAccumBlockExprs` and the decision logic of `buildGroupImpl`,
lines 533–759 and 1402–1520)
-/

/-- `SbAggExpr`: the (init, blockAgg, rowAgg) triple for one internal
aggregate.  `blockAgg = none` models a null `blockAgg` (row mode). -/
structure SbAggExpr where
  init : SbExpr
  blockAgg : Option SbExpr
  rowAgg : SbExpr
deriving Repr

/-- Embedding of `generateAccumAggs` for one statement.  With
`genBlockAggs = false` the row aggs from `buildAddAggs` are paired with null
block aggs; with `genBlockAggs = true` the operator's `buildAddBlockAggs` is
consulted and failure surfaces as `ok none`.  The init expressions must match
the agg expressions in number (tassert 7567301). -/
def generateAccumAggs (accStmt : AccumulationStatement) (genBlockAggs : Bool) :
    Except String (Option (List SbAggExpr)) :=
  let blockAggsAndRowAggs : Option (List (Option SbExpr × SbExpr)) :=
    if !genBlockAggs then
      some (accStmt.op.addAggs.map (fun a => ((none : Option SbExpr), a)))
    else
      match accStmt.op.addBlockAggs with
      | none => none
      | some pairs => some (pairs.map (fun p => (some p.1, p.2)))
  match blockAggsAndRowAggs with
  | none => .ok none
  | some pairs =>
    let inits := accStmt.op.inits
    if inits.length = pairs.length then
      .ok (some ((inits.zip pairs).map (fun ip =>
        { init := ip.1, blockAgg := ip.2.1, rowAgg := ip.2.2 })))
    else
      .error "7567301: accumulation and initialization lengths differ"

/-- Embedding of `generateAllAccumAggs`: per-statement agg vectors; the first
statement that cannot produce block aggs aborts the whole generation with
`ok none`. -/
def generateAllAccumAggs (genBlockAggs : Bool) :
    List AccumulationStatement →
    Except String (Option (List (List SbAggExpr)))
  | [] => .ok (some [])
  | accStmt :: rest =>
    match generateAccumAggs accStmt genBlockAggs with
    | .error e => .error e
    | .ok none => .ok none
    | .ok (some v) =>
      match generateAllAccumAggs genBlockAggs rest with
      | .error e => .error e
      | .ok none => .ok none
      | .ok (some vs) => .ok (some (v :: vs))

/-- Embedding of `generateAccumExprs` + the null check in
`generateAllAccumExprs` (scalar argument expressions): succeeds when the
operator's `buildAddExprs` returns non-null inputs. -/
def generateAllAccumExprs (accs : List AccumulationStatement) : Option Unit :=
  if accs.all (fun accStmt => accStmt.op.addExprsOk) then some () else none

/-- Embedding of `generateAccumBlockExprs` for one statement: the block
argument expressions, or `none` when `buildAddBlockExprs` fails. -/
def generateAccumBlockExprs (accStmt : AccumulationStatement) :
    Option (List SbExpr) :=
  if accStmt.op.addBlockExprsOk then some accStmt.op.blockArgExprs else none

/-- Embedding of `generateAllAccumBlockExprs`: all-or-nothing over the
statements. -/
def generateAllAccumBlockExprs :
    List AccumulationStatement → Option (List (List SbExpr))
  | [] => some []
  | accStmt :: rest =>
    match generateAccumBlockExprs accStmt with
    | none => none
    | some v =>
      match generateAllAccumBlockExprs rest with
      | none => none
      | some vs => some (v :: vs)

/-- `hasVariableGroupInit` from `buildGroupImpl`: some accumulator has a
non-constant initializer. -/
def hasVariableGroupInit (accs : List AccumulationStatement) : Bool :=
  accs.any (fun accStmt => !accStmt.initIsNullOrConstant)

/-- The `canBuildBlockExprsAndBlockAggs` lambda from `buildGroupImpl`. -/
def canBuildBlockExprsAndBlockAggs (accs : List AccumulationStatement) :
    Bool :=
  accs.all (fun accStmt =>
    accStmt.op.hasBuildAddBlockExprs && accStmt.op.hasBuildAddBlockAggs)

/-- The `tryToUseBlockHashAgg` condition from `buildGroupImpl` (line 1414). -/
def tryToUseBlockHashAgg (featureFlagsAllowBlockHashAgg hasBlockOutput
    hasCollatorSlot : Bool) (accs : List AccumulationStatement) : Bool :=
  featureFlagsAllowBlockHashAgg && hasBlockOutput &&
    !hasVariableGroupInit accs && !hasCollatorSlot &&
    canBuildBlockExprsAndBlockAggs accs

/-- The outcome of the columnar/row decision of `buildGroupImpl`:
which hash-agg variant is used, the per-statement agg expression vectors, and
the per-statement block argument expressions (empty in row mode). -/
structure GroupAggsPlan where
  useBlockHashAgg : Bool
  sbAggExprs : List (List SbAggExpr)
  blockAccExprs : List (List SbExpr)

/-- The row fallback of `buildGroupImpl` (lines 1477–1520): the partially
built block expressions are discarded (`blockAccExprs.clear()`), and scalar
argument expressions (tassert 8751300) and scalar agg expressions
(tassert 8751301) are regenerated for all the accumulators. -/
def rowModeAggsPlan (accs : List AccumulationStatement) :
    Except String GroupAggsPlan :=
  match generateAllAccumExprs accs with
  | none => .error "8751300: expected accumulator arg exprs to be defined"
  | some _ =>
    match generateAllAccumAggs false accs with
    | .error e => .error e
    | .ok none => .error "8751301: expected accumulator aggs to be defined"
    | .ok (some aggs) => .ok ⟨false, aggs, []⟩

/-- Embedding of the columnar/row decision logic of `buildGroupImpl`
(lines 1402–1520): attempt the block path only under `tryToUseBlockHashAgg`;
if generating block argument expressions or block agg expressions fails for
any accumulator, discard all partially built block expressions and regenerate
everything in row (scalar) mode. -/
def buildGroupAggsPlan (featureFlagsAllowBlockHashAgg hasBlockOutput
    hasCollatorSlot : Bool) (accs : List AccumulationStatement) :
    Except String GroupAggsPlan :=
  let tryBlock := tryToUseBlockHashAgg featureFlagsAllowBlockHashAgg
    hasBlockOutput hasCollatorSlot accs
  let attempt : Except String (Option (List (List SbAggExpr)) × List (List SbExpr)) :=
    if tryBlock then
      match generateAllAccumBlockExprs accs with
      | none => .ok (none, [])
      | some blockExprsVec =>
        match generateAllAccumAggs true accs with
        | .error e => .error e
        | .ok r => .ok (r, blockExprsVec)
    else .ok (none, [])
  match attempt with
  | .error e => .error e
  | .ok (some aggs, blockAccExprs) =>
    -- tassert 8751305: all blockAgg fields must be defined.
    if aggs.any (fun v => v.any (fun e => e.blockAgg.isNone)) then
      .error "8751305: expected all blockAgg fields to be defined"
    else .ok ⟨true, aggs, blockAccExprs⟩
  | .ok (none, _) => rowModeAggsPlan accs

/-!
## Finalization Stage Builder (`makeValueGuard`, `generateGroupFinalStage`,
lines 832–955)

`makeValueGuard(&state.needsMerge, groupNode.willBeMerged && state.needsMerge)`
temporarily overrides the caller-scoped merge-mode flag and restores it on
scope exit — on every exit path, including the `tasserted` early exit.  The
embedding threads the state explicitly and restores `needsMerge` on both the
success and the error path.
-/

/-- The per-statement finalize projection loop of `generateGroupFinalStage`
(lines 918–946): each statement contributes exactly one projected expression —
its finalize expression, or, when finalize is trivial, its first raw
aggregate-output slot forwarded unchanged. -/
def groupFinalProjects :
    List AccumulationStatement → List SlotId → List SbExpr
  | [], _ => []
  | accStmt :: rest, slots =>
    let slice := slots.take accStmt.op.numAggs
    let e :=
      match accStmt.op.finalize slice with
      | none => SbExpr.slotRef (slots.headD 0)
      | some finalExpr => finalExpr
    e :: groupFinalProjects rest (slots.drop accStmt.op.numAggs)

/-- The `idFinalExpr` computation of `generateGroupFinalStage`
(lines 867–895): the constant `_id` value, or the sole groupBy slot, or a
`newObj(..)` expression over the key parts' field names and slots
(tassert 8620900 when the multi-part key is not an `ExpressionObject`). -/
def groupFinalIdExpr (g : GroupNode) (groupBySlots : List SlotId)
    (idIsSingleKey : Bool) (idConstantValue : Option SbExpr) :
    Except String SbExpr :=
  match idConstantValue with
  | some c => .ok c
  | none =>
    if idIsSingleKey then
      -- the sole groupBy slot
      .ok (SbExpr.slotRef (groupBySlots.headD 0))
    else
      match g.groupByExpression with
      | .objE fields =>
        let fieldNames := fields.map (fun p => p.1)
        .ok (SbExpr.func "newObj"
          ((fieldNames.zip groupBySlots).flatMap
            (fun p => [SbExpr.strConst p.1, SbExpr.slotRef p.2])))
      | _ => .error "8620900: expected expression of type ExpressionObject"

/-- Embedding of `generateGroupFinalStage`.  Returns the updated compilation
state together with either the (output field names, output slots) pair or the
tassert failure.  The state's `needsMerge` flag is overridden for the duration
of the construction and restored before returning on every path. -/
def generateGroupFinalStage (state : StageBuilderState) (g : GroupNode)
    (groupBySlots groupOutSlots : List SlotId) (idIsSingleKey : Bool)
    (idConstantValue : Option SbExpr) :
    StageBuilderState × Except String (List String × List SlotId) :=
  let savedNeedsMerge := state.needsMerge
  -- makeValueGuard(&state.needsMerge, groupNode.willBeMerged && state.needsMerge)
  let st0 := { state with needsMerge := g.willBeMerged && state.needsMerge }
  match groupFinalIdExpr g groupBySlots idIsSingleKey idConstantValue with
  | .error e => ({ st0 with needsMerge := savedNeedsMerge }, .error e)
  | .ok idFinalExpr =>
    let projects := idFinalExpr :: groupFinalProjects g.accumulators groupOutSlots
    let fieldNames :=
      "_id" :: g.accumulators.map (fun accStmt => accStmt.fieldName)
    let finalSlots := (List.range projects.length).map
      (fun i => st0.nextSlotId + i)
    let st1 := { st0 with nextSlotId := st0.nextSlotId + projects.length }
    ({ st1 with needsMerge := savedNeedsMerge }, .ok (fieldNames, finalSlots))

/-!
## Sort-key compilation for `$top`/`$bottom` (`getTopBottomNSortByExpr`,
lines 428–475) and a small runtime semantics for the compiled guard
-/

/-- Embedding of `getTopBottomNSortByExpr`.  The externals `makeSortKeysPlan`
and `buildSortKeys` are the parameters `mkPlan` and `bSortKeys`. -/
def getTopBottomNSortByExpr (mkPlan : SortPattern → SortKeysPlan)
    (bSortKeys : SortKeysPlan → SortPattern → SbExpr → SortKeys)
    (accStmt : AccumulationStatement) (sortSpecExpr : SbExpr) :
    Except String SbExpr :=
  match accStmt.sortPattern with
  | none => .error "8774900: expected sort pattern"
  | some sp =>
    let plan := mkPlan sp
    let sortKeys := bSortKeys plan sp sortSpecExpr
    match plan.type with
    | .kTraverseFields =>
      if sp.parts.length = 0 then .error "unreachable: empty sort pattern"
      else
        let fullKeyExpr :=
          if sp.parts.length = 1 then
            -- the sole part's key expr
            sortKeys.keyExprs.headD (SbExpr.func "newArray" [])
          else
            -- an array containing each part's key expr (in order)
            SbExpr.func "newArray" sortKeys.keyExprs
        match sortKeys.parallelArraysCheckExpr with
        | some check =>
          .ok (SbExpr.eif check fullKeyExpr
            (SbExpr.fail badValueCode
              "cannot sort with keys that are parallel arrays"))
        | none => .ok fullKeyExpr
    | .kCallGenCheapSortKey =>
      .ok (SbExpr.func "sortKeyComponentVectorToArray" [sortKeys.fullKeyExpr])

/-- Runtime environment for evaluating compiled SBE expressions: the slot
contents and the (external) semantics of SBE builtin functions. -/
structure EvalEnv where
  slotVal : SlotId → Value
  funcSem : String → List SbExpr → Except (Nat × String) Value

/-- Runtime evaluation of the fragment of SBE expressions built here.
`fail` raises its error code and message; `eif` evaluates its condition and
branches. -/
def SbExpr.eval (env : EvalEnv) : SbExpr → Except (Nat × String) Value
  | .slotRef s => .ok (env.slotVal s)
  | .constant v => .ok v
  | .strConst s => .ok (Value.str s)
  | .fillEmptyNull e =>
    (e.eval env).map (fun v =>
      match v with
      | Value.nothing => Value.null
      | v => v)
  | .func name args => env.funcSem name args
  | .eif c t e =>
    match c.eval env with
    | .error err => .error err
    | .ok (Value.bool true) => t.eval env
    | .ok (Value.bool false) => e.eval env
    | .ok _ => .ok Value.nothing
  | .fail code msg => .error (code, msg)

/-!
## Output field bindings of `buildGroup` (lines 1243–1253)
-/

/-- A `kField` slot map with `PlanStageSlots::set` overwrite semantics. -/
def SlotMap := String → Option SlotId

/-- `outputs.set(std::make_pair(PlanStageSlots::kField, name), slot)`. -/
def setSlot (m : SlotMap) (k : String) (v : SlotId) : SlotMap :=
  fun x => if x = k then some v else m x

/-- Embedding of the output-field binding loops of `buildGroup`
(lines 1243–1253): first bind every output field name to its final slot, then
bind every parent-requested field whose top-level field is not an output
field to the `Nothing` marker slot (`getNothingSlot()`).  Requested paths are
component lists; their `kField` key is the joined dotted string. -/
def bindGroupOutputFields (fieldNames : List String)
    (finalSlots : List SlotId) (reqFields : List (List String))
    (nothingSlot : SlotId) : SlotMap :=
  let m := (fieldNames.zip finalSlots).foldl
    (fun m p => setSlot m p.1 p.2) (fun _ => none)
  reqFields.foldl
    (fun m path =>
      if fieldNames.contains (getTopLevelField path) then m
      else setSlot m (String.intercalate "." path) nothingSlot)
    m

/-!
## Sample data for instantiating the theorems on concrete inputs
-/

/-- A sample accumulator operator resembling `$min`: one internal aggregate,
full columnar support. -/
def minOp : AccumOp where
  numAggs := 1
  hasBuildAddBlockExprs := true
  hasBuildAddBlockAggs := true
  addExprsOk := true
  addBlockExprsOk := true
  blockArgExprs := [SbExpr.slotRef 100]
  addAggs := [SbExpr.func "min" [SbExpr.slotRef 100]]
  addBlockAggs := some [(SbExpr.func "valueBlockAggMin" [SbExpr.slotRef 100],
    SbExpr.func "min" [SbExpr.slotRef 100])]
  inits := [SbExpr.constant Value.null]
  finalize := fun slots =>
    some (SbExpr.fillEmptyNull (SbExpr.slotRef (slots.headD 0)))
  combineAggs := fun spillSlots =>
    spillSlots.map (fun s => SbExpr.func "min" [SbExpr.slotRef s])

/-- A sample accumulator operator resembling `$avg`: two internal aggregates
(a running sum and a running count) and no columnar aggregate support. -/
def avgOp : AccumOp where
  numAggs := 2
  hasBuildAddBlockExprs := true
  hasBuildAddBlockAggs := false
  addExprsOk := true
  addBlockExprsOk := true
  blockArgExprs := [SbExpr.slotRef 101]
  addAggs := [SbExpr.func "sum" [SbExpr.slotRef 101],
    SbExpr.func "sum" [SbExpr.constant (Value.num 1)]]
  addBlockAggs := none
  inits := [SbExpr.constant Value.null, SbExpr.constant (Value.num 0)]
  finalize := fun slots =>
    some (SbExpr.func "div"
      [SbExpr.slotRef (slots.headD 0), SbExpr.slotRef (slots.getD 1 0)])
  combineAggs := fun spillSlots =>
    spillSlots.map (fun s => SbExpr.func "sum" [SbExpr.slotRef s])

/-- A sample `$min` accumulation statement producing output field `x`. -/
def minStmt : AccumulationStatement where
  fieldName := "x"
  op := minOp
  argument := MQLExpr.fieldPathE ⟨true, false, ["CURRENT", "b"]⟩
  initIsNullOrConstant := true
  sortPattern := none

/-- A sample `$avg` accumulation statement producing output field `y`. -/
def avgStmt : AccumulationStatement where
  fieldName := "y"
  op := avgOp
  argument := MQLExpr.fieldPathE ⟨true, false, ["CURRENT", "b"]⟩
  initIsNullOrConstant := true
  sortPattern := none

/-- A sample `GroupNode` grouping by `$a` with a `$min` accumulator. -/
def sampleGroupNode : GroupNode where
  groupByExpression := MQLExpr.fieldPathE ⟨true, false, ["CURRENT", "a"]⟩
  accumulators := [minStmt]
  willBeMerged := true
  needWholeDocument := false
  requiredFields := [["a"], ["b"]]
  shouldProduceBson := true

/-- A sample block-mode `PlanStageSlots`: the top-level field `t` is backed
by a block slot, everything else is scalar, and no path-expression slots are
bound yet. -/
def sampleBlockOutputs : PlanStageSlots where
  hasBlockOutput := true
  fieldIsBlock := fun f => f == "t"
  pathExprSlots := fun _ => none

/-- A sample path-expression cache with one block-backed path (`t.x`) and one
scalar-backed path (`m.y`). -/
def sampleFieldPathMap : List (String × FieldPathInfo) :=
  [("t.x", ⟨true, false, ["CURRENT", "t", "x"]⟩),
   ("m.y", ⟨true, false, ["CURRENT", "m", "y"]⟩)]

/-- A sample order-sensitive (`$top`-like) accumulation statement with a
one-part sort pattern on field `a`. -/
def topBottomStmt : AccumulationStatement where
  fieldName := "t"
  op := minOp
  argument := MQLExpr.constE false
  initIsNullOrConstant := true
  sortPattern := some ⟨[("a", true)]⟩

/-- A sample `GroupNode` grouping by the dotted path `$a.b`. -/
def dottedGroupNode : GroupNode where
  groupByExpression := MQLExpr.fieldPathE ⟨true, false, ["CURRENT", "a", "b"]⟩
  accumulators := [minStmt]
  willBeMerged := false
  needWholeDocument := false
  requiredFields := [["a", "b"], ["b"]]
  shouldProduceBson := true

end GenGroup

namespace GenGroup

/-!
# Theorems
-/

/-- C1 (counterexample): the claim asserts that for an object group key no
fill-empty-null wrapping is applied to any part "regardless of N (including
N = 1)".  The code wraps the sole compiled part of a one-field object key
with `makeFillEmptyNull` (the SERVER-21992 classic-engine emulation), so the
compiled key expressions differ from the plain per-part compilation. -/
theorem c1_singleFieldObjKey_wrapped_counterexample :
    ¬ (generateGroupByKeyExprs (fun _ => SbExpr.slotRef 4)
        (MQLExpr.objE [("g", MQLExpr.constE false)])
      = [SbExpr.slotRef 4]) := by
  simp [generateGroupByKeyExprs]

/-- C1 (amended): a single (non-object) key expression is always wrapped with
fill-empty-null; an object key compiles each part independently in
declaration order, and no fill-empty-null wrapping is applied to any part
when the object has N ≥ 2 parts — but an object key with exactly one part
has its sole compiled part wrapped with fill-empty-null, emulating the
classic engine. -/
theorem c1_groupByKey_nullCollapsing (gen : MQLExpr → SbExpr) :
    (∀ e : MQLExpr, e.isObj = false →
      generateGroupByKeyExprs gen e = [SbExpr.fillEmptyNull (gen e)]) ∧
    (∀ f : String × MQLExpr,
      generateGroupByKeyExprs gen (MQLExpr.objE [f])
        = [SbExpr.fillEmptyNull (gen f.2)]) ∧
    (∀ fields : List (String × MQLExpr), 2 ≤ fields.length →
      generateGroupByKeyExprs gen (MQLExpr.objE fields)
        = fields.map (fun p => gen p.2)) := by
  refine ⟨?_, ?_, ?_⟩
  · intro e he
    cases e <;> simp_all [MQLExpr.isObj, generateGroupByKeyExprs]
  · intro f
    simp [generateGroupByKeyExprs]
  · intro fields hlen
    match fields with
    | a :: b :: rest => simp [generateGroupByKeyExprs]
    | [] => simp at hlen
    | [a] => simp at hlen

/-- Witness for C1: the amended theorem applied at concrete inputs — a
non-object key, and a two-field object key. -/
theorem c1_groupByKey_nullCollapsing_witness :
    ((MQLExpr.constE false).isObj = false ∧
      generateGroupByKeyExprs (fun _ => SbExpr.slotRef 7) (MQLExpr.constE false)
        = [SbExpr.fillEmptyNull (SbExpr.slotRef 7)]) ∧
    (2 ≤ ([("g", MQLExpr.constE false), ("h", MQLExpr.constE true)] :
        List (String × MQLExpr)).length ∧
      generateGroupByKeyExprs (fun _ => SbExpr.slotRef 7)
        (MQLExpr.objE [("g", MQLExpr.constE false), ("h", MQLExpr.constE true)])
        = [SbExpr.slotRef 7, SbExpr.slotRef 7]) := by
  constructor
  · exact ⟨rfl,
      (c1_groupByKey_nullCollapsing (fun _ => SbExpr.slotRef 7)).1
        (MQLExpr.constE false) rfl⟩
  · refine ⟨by simp, ?_⟩
    have h := (c1_groupByKey_nullCollapsing (fun _ => SbExpr.slotRef 7)).2.2
      [("g", MQLExpr.constE false), ("h", MQLExpr.constE true)] (by simp)
    simpa using h

/-! ### C5: the Requirement Projector -/

theorem childReqsSortKeysStep_resultObj (mkPlan : SortPattern → SortKeysPlan)
    (acc : PlanStageReqs × Bool) (accStmt : AccumulationStatement) :
    (childReqsSortKeysStep mkPlan acc accStmt).1.resultObj
      = acc.1.resultObj := by
  unfold childReqsSortKeysStep
  cases accStmt.sortPattern <;> simp [PlanStageReqs.setFields]
  split <;> rfl

theorem childReqsSortKeysStep_snd (mkPlan : SortPattern → SortKeysPlan)
    (acc : PlanStageReqs × Bool) (accStmt : AccumulationStatement) :
    (childReqsSortKeysStep mkPlan acc accStmt).2
      = (acc.2 || sortKeyNeedsResultObj mkPlan accStmt) := by
  unfold childReqsSortKeysStep sortKeyNeedsResultObj
  cases accStmt.sortPattern <;> simp

theorem foldl_childReqs_resultObj (mkPlan : SortPattern → SortKeysPlan)
    (accs : List AccumulationStatement) :
    ∀ acc : PlanStageReqs × Bool,
      (accs.foldl (childReqsSortKeysStep mkPlan) acc).1.resultObj
        = acc.1.resultObj := by
  induction accs with
  | nil => intro acc; rfl
  | cons s rest ih =>
    intro acc
    rw [List.foldl_cons, ih]
    exact childReqsSortKeysStep_resultObj mkPlan acc s

theorem foldl_childReqs_snd (mkPlan : SortPattern → SortKeysPlan)
    (accs : List AccumulationStatement) :
    ∀ acc : PlanStageReqs × Bool,
      (accs.foldl (childReqsSortKeysStep mkPlan) acc).2
        = (acc.2 || accs.any (sortKeyNeedsResultObj mkPlan)) := by
  induction accs with
  | nil => intro acc; simp
  | cons s rest ih =>
    intro acc
    rw [List.foldl_cons, ih, childReqsSortKeysStep_snd]
    simp [Bool.or_assoc]

theorem foldl_childReqs_fields_mono (mkPlan : SortPattern → SortKeysPlan)
    (accs : List AccumulationStatement) :
    ∀ (acc : PlanStageReqs × Bool) (x : String), x ∈ acc.1.fields →
      x ∈ (accs.foldl (childReqsSortKeysStep mkPlan) acc).1.fields := by
  induction accs with
  | nil => intro acc x h; exact h
  | cons s rest ih =>
    intro acc x h
    rw [List.foldl_cons]
    apply ih
    unfold childReqsSortKeysStep
    cases hsp : s.sortPattern with
    | none => simpa using h
    | some sp =>
      by_cases hf : (mkPlan sp).fieldsForSortKeys.isEmpty <;>
        simp [hf, PlanStageReqs.setFields, List.mem_append, h]

theorem childReqsBase_resultObj (reqs : PlanStageReqs) (g : GroupNode) :
    (childReqsBase reqs g).resultObj = true := by
  by_cases h : (getTopLevelFields g.requiredFields).isEmpty <;>
    simp [childReqsBase, h, PlanStageReqs.setFields]

theorem childReqsBase_mem (reqs : PlanStageReqs) (g : GroupNode) (f : String)
    (hf : f ∈ getTopLevelFields g.requiredFields) :
    f ∈ (childReqsBase reqs g).fields := by
  unfold childReqsBase
  have hne : (getTopLevelFields g.requiredFields).isEmpty = false := by
    cases h : getTopLevelFields g.requiredFields with
    | nil => rw [h] at hf; simp at hf
    | cons a l => simp [h]
  simp [hne, PlanStageReqs.setFields, hf]

/-- C5: the child requirement computation always includes the
result-object requirement unless `needWholeDocument` is false and no
order-sensitive accumulator's sort-key plan needs the result object, and it
requests every top-level field referenced by the group node regardless of the
result-object requirement.  (It is a pure function of its inputs by
construction of the embedding.) -/
theorem c5_computeChildReqsForGroup (mkPlan : SortPattern → SortKeysPlan)
    (reqs : PlanStageReqs) (g : GroupNode) :
    (computeChildReqsForGroup mkPlan reqs g).resultObj
      = (g.needWholeDocument ||
         g.accumulators.any (sortKeyNeedsResultObj mkPlan)) ∧
    (∀ f ∈ getTopLevelFields g.requiredFields,
      f ∈ (computeChildReqsForGroup mkPlan reqs g).fields) := by
  unfold computeChildReqsForGroup
  by_cases hw : g.needWholeDocument
  · simp only [hw, Bool.not_true, Bool.false_eq_true, if_false, Bool.true_or]
    exact ⟨childReqsBase_resultObj reqs g,
      fun f hf => childReqsBase_mem reqs g f hf⟩
  · have hw' : g.needWholeDocument = false := by simpa using hw
    have hsnd : (g.accumulators.foldl (childReqsSortKeysStep mkPlan)
        (childReqsBase reqs g, false)).2
        = g.accumulators.any (sortKeyNeedsResultObj mkPlan) := by
      rw [foldl_childReqs_snd]; simp
    simp only [hw', Bool.not_false, if_true, Bool.false_or]
    constructor
    · by_cases hany : g.accumulators.any (sortKeyNeedsResultObj mkPlan)
      · rw [hsnd]
        simp only [hany, Bool.not_true, Bool.false_eq_true, if_false]
        rw [foldl_childReqs_resultObj]
        simp [childReqsBase_resultObj reqs g, hany]
      · have hany' : g.accumulators.any (sortKeyNeedsResultObj mkPlan)
            = false := by simpa using hany
        rw [hsnd]
        simp [hany']
    · intro f hf
      have hmem := foldl_childReqs_fields_mono mkPlan g.accumulators
        (childReqsBase reqs g, false) f (childReqsBase_mem reqs g f hf)
      split <;> simpa using hmem

/-- Witness for C5: the theorem applied to a concrete parent requirement set
and the sample group node. -/
theorem c5_computeChildReqsForGroup_witness :
    "a" ∈ getTopLevelFields sampleGroupNode.requiredFields ∧
    "a" ∈ (computeChildReqsForGroup (fun _ => ⟨.kTraverseFields, [], false⟩)
      ⟨false, ["z"]⟩ sampleGroupNode).fields := by
  refine ⟨by simp [sampleGroupNode, getTopLevelFields, getTopLevelField], ?_⟩
  exact (c5_computeChildReqsForGroup (fun _ => ⟨.kTraverseFields, [], false⟩)
    ⟨false, ["z"]⟩ sampleGroupNode).2 "a"
    (by simp [sampleGroupNode, getTopLevelFields, getTopLevelField])

/-! ### C10: the field-path cache -/

theorem accumulateFieldPath_eq (m : List (String × FieldPathInfo))
    (e : FieldPathInfo) :
    accumulateFieldPath m e = m ∨
    (accumulateFieldPath m e = m ++ [(fieldPathWithoutCurrentPrefix e, e)] ∧
     e.isVarRef = false ∧ e.components.length ≠ 1 ∧
     e.components.length ≠ 2 ∧
     ∀ p ∈ m, p.1 ≠ fieldPathWithoutCurrentPrefix e) := by
  unfold accumulateFieldPath
  by_cases h1 : (decide (e.components.length = 1) || e.isVarRef) = true
  · left; simp [h1]
  · have h1a : e.components.length ≠ 1 := by
      intro h; apply h1; simp [h]
    have h1b : e.isVarRef = false := by
      rcases Bool.eq_false_or_eq_true e.isVarRef with h | h
      · exact absurd (by simp [h]) h1
      · exact h
    by_cases h2 : m.any (fun p => p.1 = fieldPathWithoutCurrentPrefix e) = true
    · left; simp [h1, h2]
    · by_cases h3 : e.components.length ≠ 2
      · right
        refine ⟨by simp [h1, h2, h3], h1b, h1a, h3, ?_⟩
        intro p hp heq
        exact h2 (List.any_eq_true.mpr ⟨p, hp, by simp [heq]⟩)
      · left; simp [h1, h2, h3]

theorem foldl_accumulateFieldPath_invariant (l : List FieldPathInfo) :
    ∀ m : List (String × FieldPathInfo),
      (∀ info ∈ l, info.components ≠ []) →
      (∀ p ∈ m, p.2.isVarRef = false ∧ 3 ≤ p.2.components.length) →
      ((m.map (fun p => p.1)).Nodup) →
      (∀ p ∈ l.foldl accumulateFieldPath m,
          p.2.isVarRef = false ∧ 3 ≤ p.2.components.length) ∧
      (((l.foldl accumulateFieldPath m).map (fun p => p.1)).Nodup) := by
  induction l with
  | nil => intro m _ hm hnd; exact ⟨hm, hnd⟩
  | cons e rest ih =>
    intro m hl hm hnd
    rw [List.foldl_cons]
    rcases accumulateFieldPath_eq m e with h | ⟨h, hvr, h1, h2, hfresh⟩
    · rw [h]
      exact ih m (fun i hi => hl i (by simp [hi])) hm hnd
    · rw [h]
      apply ih
      · intro i hi; exact hl i (by simp [hi])
      · intro p hp
        rcases List.mem_append.mp hp with hp | hp
        · exact hm p hp
        · have hpe : p = (fieldPathWithoutCurrentPrefix e, e) := by simpa using hp
          subst hpe
          refine ⟨hvr, ?_⟩
          have hne : e.components ≠ [] := hl e (by simp)
          have hlen0 : e.components.length ≠ 0 := by simpa using hne
          show 3 ≤ e.components.length
          omega
      · rw [List.map_append]
        refine List.Nodup.append hnd (by simp) ?_
        intro a ha hb
        have hb' : a = fieldPathWithoutCurrentPrefix e := by simpa using hb
        rcases List.mem_map.mp ha with ⟨p, hp, hpa⟩
        exact hfresh p hp (hpa.trans hb')

/-- C10: the field-path cache built from a `GroupNode` contains an entry only
for field paths with at least two components below the document root (path
length ≥ 3 counting the `CURRENT` prefix): whole-document references
(length 1), other-variable references, and single-component top-level
references (length 2) are all excluded, and each normalized path string is a
key at most once. -/
theorem c10_collectFieldPaths_invariant (g : GroupNode)
    (hvalid : ∀ info ∈ walkFieldPaths g.groupByExpression ++
        g.accumulators.flatMap (fun a => walkFieldPaths a.argument),
      info.components ≠ []) :
    (∀ p ∈ collectFieldPaths g,
        p.2.isVarRef = false ∧ 3 ≤ p.2.components.length) ∧
    ((collectFieldPaths g).map (fun p => p.1)).Nodup := by
  unfold collectFieldPaths
  exact foldl_accumulateFieldPath_invariant _ [] hvalid (by simp) (by simp)

/-- Witness for C10: the theorem applied to the sample group node with the
dotted key `$a.b`. -/
theorem c10_collectFieldPaths_invariant_witness :
    (∀ info ∈ walkFieldPaths dottedGroupNode.groupByExpression ++
        dottedGroupNode.accumulators.flatMap (fun a => walkFieldPaths a.argument),
      info.components ≠ []) ∧
    (∀ p ∈ collectFieldPaths dottedGroupNode,
        p.2.isVarRef = false ∧ 3 ≤ p.2.components.length) ∧
    ((collectFieldPaths dottedGroupNode).map (fun p => p.1)).Nodup := by
  have hv : ∀ info ∈ walkFieldPaths dottedGroupNode.groupByExpression ++
      dottedGroupNode.accumulators.flatMap (fun a => walkFieldPaths a.argument),
      info.components ≠ [] := by
    simp [dottedGroupNode, minStmt, walkFieldPaths]
  exact ⟨hv, (c10_collectFieldPaths_invariant dottedGroupNode hv).1,
    (c10_collectFieldPaths_invariant dottedGroupNode hv).2⟩

/-! ### C4: merge entries -/

theorem generateMergingExpressions_ok {st : StageBuilderState}
    {accStmt : AccumulationStatement} {n : Nat} {st' : StageBuilderState}
    {v : List (SbExpr × SlotId)}
    (h : generateMergingExpressions st accStmt n = .ok (st', v)) :
    v.length = n ∧ st'.nextSlotId = st.nextSlotId + n ∧
    st'.needsMerge = st.needsMerge ∧
    v.map (fun p => p.2) = (List.range n).map (fun i => st.nextSlotId + i) := by
  unfold generateMergingExpressions at h
  by_cases hn : n = 0
  · simp [hn] at h
  · simp only [hn, if_false] at h
    set spillSlots := (List.range n).map (fun i => st.nextSlotId + i) with hss
    set mergingExprs := accStmt.op.combineAggs spillSlots with hme
    by_cases hlen : spillSlots.length = mergingExprs.length
    · simp only [hlen, if_true] at h
      obtain ⟨hst, hv⟩ := Prod.mk.injEq .. ▸ (Except.ok.injEq .. ▸ h)
      have hslen : spillSlots.length = n := by simp [hss]
      constructor
      · rw [← hv]
        rw [List.length_zip]
        omega
      · refine ⟨by rw [← hst], by rw [← hst], ?_⟩
        rw [← hv]
        have : mergingExprs.length = spillSlots.length := hlen.symm
        calc (mergingExprs.zip spillSlots).map (fun p => p.2)
            = spillSlots := by
              apply List.map_snd_zip
              omega
          _ = (List.range n).map (fun i => st.nextSlotId + i) := hss.symm
    · simp [hlen] at h

theorem generateAllMergingExprs_spec (accs : List AccumulationStatement) :
    ∀ (st st' : StageBuilderState) (vec : List (List (SbExpr × SlotId))),
      generateAllMergingExprs st accs = .ok (st', vec) →
      vec.length = accs.length ∧
      (∀ i (hv : i < vec.length) (ha : i < accs.length),
        (vec.get ⟨i, hv⟩).length = (accs.get ⟨i, ha⟩).op.numAggs) ∧
      st'.nextSlotId
        = st.nextSlotId + (accs.map (fun a => a.op.numAggs)).sum ∧
      vec.flatMap (fun l => l.map (fun p => p.2))
        = (List.range ((accs.map (fun a => a.op.numAggs)).sum)).map
            (fun i => st.nextSlotId + i) := by
  induction accs with
  | nil =>
    intro st st' vec h
    unfold generateAllMergingExprs at h
    obtain ⟨hst, hv⟩ := Prod.mk.injEq .. ▸ (Except.ok.injEq .. ▸ h)
    subst hst; subst hv
    refine ⟨rfl, ?_, by simp, by simp⟩
    intro i hv ha
    simp at hv
  | cons a rest ih =>
    intro st st' vec h
    unfold generateAllMergingExprs at h
    cases h1 : generateMergingExpressions st a a.op.numAggs with
    | error e => rw [h1] at h; exact absurd h (by simp)
    | ok p =>
      obtain ⟨st1, v1⟩ := p
      rw [h1] at h
      dsimp only at h
      cases h2 : generateAllMergingExprs st1 rest with
      | error e => rw [h2] at h; exact absurd h (by simp)
      | ok q =>
        obtain ⟨st2, vs⟩ := q
        rw [h2] at h
        simp only [Except.ok.injEq, Prod.mk.injEq] at h
        obtain ⟨hst, hv⟩ := h
        subst hv
        obtain ⟨hlen1, hnext1, _, hslots1⟩ := generateMergingExpressions_ok h1
        obtain ⟨hlenr, hidxr, hnextr, hslotsr⟩ := ih st1 st2 vs h2
        refine ⟨by simp [hlenr], ?_, ?_, ?_⟩
        · intro i hv ha
          cases i with
          | zero => simpa using hlen1
          | succ j =>
            have hv' : j < vs.length := by simpa using hv
            have ha' : j < rest.length := by simpa using ha
            simpa using hidxr j hv' ha'
        · simp only [List.map_cons, List.sum_cons]
          rw [← hst, hnextr, hnext1, Nat.add_assoc]
        · simp only [List.flatMap_cons, List.map_cons, List.sum_cons]
          rw [hslots1, hslotsr, hnext1, List.range_add, List.map_append,
            List.map_map]
          have hfun : ((fun i => st.nextSlotId + i) ∘
              (fun i => a.op.numAggs + i))
              = (fun i => st.nextSlotId + a.op.numAggs + i) := by
            funext i
            simp only [Function.comp]
            rw [← Nat.add_assoc]
          rw [hfun]

/-- C4: for every accumulation statement, the compiler generates one merge
entry (fresh spill-recovery slot, merging expression) per internal aggregate:
the entry vector of each statement has length equal to the operator's
internal-aggregate count (`getNumAggs()`), the merging-expression and slot
vectors are zipped pairwise (equal length, checked by tassert 7039550), and
the spill slots across all statements are exactly the consecutive freshly
allocated slot ids. -/
theorem c4_mergeEntries_per_internal_aggregate
    (st st' : StageBuilderState) (accs : List AccumulationStatement)
    (vec : List (List (SbExpr × SlotId)))
    (hok : generateAllMergingExprs st accs = .ok (st', vec)) :
    vec.length = accs.length ∧
    (∀ i (hv : i < vec.length) (ha : i < accs.length),
      (vec.get ⟨i, hv⟩).length = (accs.get ⟨i, ha⟩).op.numAggs) ∧
    vec.flatMap (fun l => l.map (fun p => p.2))
      = (List.range ((accs.map (fun a => a.op.numAggs)).sum)).map
          (fun i => st.nextSlotId + i) := by
  obtain ⟨h1, h2, _, h4⟩ := generateAllMergingExprs_spec accs st st' vec hok
  exact ⟨h1, h2, h4⟩

/-- Witness for C4: the theorem applied to the `$min` and `$avg` sample
statements (one and two internal aggregates). -/
theorem c4_mergeEntries_witness :
    generateAllMergingExprs ⟨true, 20⟩ [minStmt, avgStmt]
      = .ok (⟨true, 23⟩,
        [[(SbExpr.func "min" [SbExpr.slotRef 20], 20)],
         [(SbExpr.func "sum" [SbExpr.slotRef 21], 21),
          (SbExpr.func "sum" [SbExpr.slotRef 22], 22)]]) ∧
    ([[(SbExpr.func "min" [SbExpr.slotRef 20], 20)],
      [(SbExpr.func "sum" [SbExpr.slotRef 21], 21),
       (SbExpr.func "sum" [SbExpr.slotRef 22], 22)]] :
        List (List (SbExpr × SlotId))).length = [minStmt, avgStmt].length := by
  have h : generateAllMergingExprs ⟨true, 20⟩ [minStmt, avgStmt]
      = .ok (⟨true, 23⟩,
        [[(SbExpr.func "min" [SbExpr.slotRef 20], 20)],
         [(SbExpr.func "sum" [SbExpr.slotRef 21], 21),
          (SbExpr.func "sum" [SbExpr.slotRef 22], 22)]]) := by
    simp [generateAllMergingExprs, generateMergingExpressions, minStmt, avgStmt,
      minOp, avgOp, List.range_succ]
  exact ⟨h, (c4_mergeEntries_per_internal_aggregate ⟨true, 20⟩ ⟨true, 23⟩
    [minStmt, avgStmt] _ h).1⟩

/-! ### C3 and C8: the Finalization Stage Builder -/

theorem groupFinalProjects_length (accs : List AccumulationStatement) :
    ∀ slots : List SlotId,
      (groupFinalProjects accs slots).length = accs.length := by
  induction accs with
  | nil => intro slots; rfl
  | cons a rest ih =>
    intro slots
    simpa [groupFinalProjects] using ih (slots.drop a.op.numAggs)

/-- C3: whenever `generateGroupFinalStage` succeeds, the output field-name
list is exactly `_id` followed by the accumulator output field names in
declaration order, and the number of output slots is one plus the number of
accumulation statements. -/
theorem c3_outputFieldOrder (state : StageBuilderState) (g : GroupNode)
    (groupBySlots groupOutSlots : List SlotId) (idIsSingleKey : Bool)
    (idConstantValue : Option SbExpr)
    (names : List String) (slots : List SlotId)
    (hok : (generateGroupFinalStage state g groupBySlots groupOutSlots
        idIsSingleKey idConstantValue).2 = .ok (names, slots)) :
    names = "_id" :: g.accumulators.map (fun accStmt => accStmt.fieldName) ∧
    slots.length = 1 + g.accumulators.length := by
  unfold generateGroupFinalStage at hok
  cases hres : groupFinalIdExpr g groupBySlots idIsSingleKey idConstantValue with
  | error e => rw [hres] at hok; exact absurd hok (by simp)
  | ok idFinalExpr =>
    rw [hres] at hok
    simp only [Except.ok.injEq, Prod.mk.injEq] at hok
    obtain ⟨hn, hs⟩ := hok
    subst hn; subst hs
    refine ⟨rfl, ?_⟩
    simp [groupFinalProjects_length, Nat.add_comm]

/-- Witness for C3: the theorem applied to the sample group node with one
accumulator. -/
theorem c3_outputFieldOrder_witness :
    (generateGroupFinalStage ⟨true, 10⟩ sampleGroupNode [1] [2] true none).2
      = .ok (["_id", "x"], [10, 11]) ∧
    (["_id", "x"] : List String)
      = "_id" :: sampleGroupNode.accumulators.map (fun accStmt => accStmt.fieldName) ∧
    ([10, 11] : List SlotId).length = 1 + sampleGroupNode.accumulators.length := by
  have h : (generateGroupFinalStage ⟨true, 10⟩ sampleGroupNode [1] [2]
      true none).2 = .ok (["_id", "x"], [10, 11]) := by
    simp [generateGroupFinalStage, groupFinalIdExpr, groupFinalProjects,
      sampleGroupNode, minStmt, minOp, List.range_succ]
  exact ⟨h, (c3_outputFieldOrder ⟨true, 10⟩ sampleGroupNode [1] [2] true none
    ["_id", "x"] [10, 11] h).1,
    (c3_outputFieldOrder ⟨true, 10⟩ sampleGroupNode [1] [2] true none
    ["_id", "x"] [10, 11] h).2⟩

/-- C8: the caller-scoped `needsMerge` flag is unchanged by the group's
finalization-stage construction: it is overridden to
`groupNode.willBeMerged && needsMerge` for the duration of the construction
and restored to its prior value on every exit path, including the
tassert-failure early exit. -/
theorem c8_needsMerge_restored (state : StageBuilderState) (g : GroupNode)
    (groupBySlots groupOutSlots : List SlotId) (idIsSingleKey : Bool)
    (idConstantValue : Option SbExpr) :
    (generateGroupFinalStage state g groupBySlots groupOutSlots
        idIsSingleKey idConstantValue).1.needsMerge
      = state.needsMerge := by
  unfold generateGroupFinalStage
  cases groupFinalIdExpr g groupBySlots idIsSingleKey idConstantValue <;> rfl

/-! ### C2: all-or-nothing columnar aggregation -/

theorem generateAllAccumBlockExprs_ok_forall :
    ∀ {accs : List AccumulationStatement} {v : List (List SbExpr)},
      generateAllAccumBlockExprs accs = some v →
      ∀ a ∈ accs, a.op.addBlockExprsOk = true := by
  intro accs
  induction accs with
  | nil => intro v _ a ha; simp at ha
  | cons x rest ih =>
    intro v h a ha
    unfold generateAllAccumBlockExprs at h
    cases hx : generateAccumBlockExprs x with
    | none => rw [hx] at h; simp at h
    | some vx =>
      rw [hx] at h
      cases hr : generateAllAccumBlockExprs rest with
      | none => rw [hr] at h; simp at h
      | some vr =>
        rcases List.mem_cons.mp ha with rfl | ha'
        · unfold generateAccumBlockExprs at hx
          by_cases hb : a.op.addBlockExprsOk
          · exact hb
          · simp [hb] at hx
        · exact ih hr a ha'

theorem generateAllAccumAggs_true_ok_forall :
    ∀ {accs : List AccumulationStatement} {v : List (List SbAggExpr)},
      generateAllAccumAggs true accs = .ok (some v) →
      ∀ a ∈ accs, a.op.addBlockAggs ≠ none := by
  intro accs
  induction accs with
  | nil => intro v _ a ha; simp at ha
  | cons x rest ih =>
    intro v h a ha
    unfold generateAllAccumAggs at h
    cases hx : generateAccumAggs x true with
    | error e => rw [hx] at h; simp at h
    | ok r =>
      rw [hx] at h
      cases r with
      | none => simp at h
      | some vx =>
        cases hr : generateAllAccumAggs true rest with
        | error e => rw [hr] at h; simp at h
        | ok r2 =>
          rw [hr] at h
          cases r2 with
          | none => simp at h
          | some vs =>
            rcases List.mem_cons.mp ha with rfl | ha'
            · intro hnone
              unfold generateAccumAggs at hx
              rw [hnone] at hx
              simp at hx
            · exact ih hr a ha'

theorem generateAccumAggs_false_rowOnly
    {accStmt : AccumulationStatement} {vx : List SbAggExpr}
    (h : generateAccumAggs accStmt false = .ok (some vx)) :
    ∀ e ∈ vx, e.blockAgg = none := by
  unfold generateAccumAggs at h
  by_cases hl : accStmt.op.inits.length
      = (accStmt.op.addAggs.map
          (fun a => ((none : Option SbExpr), a))).length
  · simp only [Bool.not_false, if_true, hl, Except.ok.injEq,
      Option.some.injEq] at h
    subst h
    intro e he
    rcases List.mem_map.mp he with ⟨ip, hip, hipe⟩
    have h2 := (List.of_mem_zip hip).2
    rcases List.mem_map.mp h2 with ⟨a0, _, ha0⟩
    rw [← hipe]
    rw [← ha0]
  · simp only [Bool.not_false, if_true, hl] at h
    simp at h

theorem generateAllAccumAggs_false_rowOnly :
    ∀ {accs : List AccumulationStatement} {v : List (List SbAggExpr)},
      generateAllAccumAggs false accs = .ok (some v) →
      ∀ l ∈ v, ∀ e ∈ l, e.blockAgg = none := by
  intro accs
  induction accs with
  | nil =>
    intro v h l hl
    unfold generateAllAccumAggs at h
    simp at h
    subst h
    simp at hl
  | cons x rest ih =>
    intro v h l hl
    unfold generateAllAccumAggs at h
    cases hx : generateAccumAggs x false with
    | error e => rw [hx] at h; simp at h
    | ok r =>
      rw [hx] at h
      cases r with
      | none => simp at h
      | some vx =>
        cases hr : generateAllAccumAggs false rest with
        | error e => rw [hr] at h; simp at h
        | ok r2 =>
          rw [hr] at h
          cases r2 with
          | none => simp at h
          | some vs =>
            have hv : v = vx :: vs := by simpa using h.symm
            subst hv
            rcases List.mem_cons.mp hl with rfl | hl'
            · exact generateAccumAggs_false_rowOnly hx
            · exact ih hr l hl'

theorem rowModeAggsPlan_ok {accs : List AccumulationStatement}
    {plan : GroupAggsPlan} (h : rowModeAggsPlan accs = .ok plan) :
    plan.useBlockHashAgg = false ∧ plan.blockAccExprs = [] ∧
    generateAllAccumAggs false accs = .ok (some plan.sbAggExprs) := by
  unfold rowModeAggsPlan at h
  cases he : generateAllAccumExprs accs with
  | none => rw [he] at h; simp at h
  | some u =>
    rw [he] at h
    cases hg : generateAllAccumAggs false accs with
    | error e => rw [hg] at h; simp at h
    | ok r =>
      rw [hg] at h
      cases r with
      | none => simp at h
      | some aggs =>
        have hp : plan = ⟨false, aggs, []⟩ := by simpa using h.symm
        subst hp
        exact ⟨rfl, rfl, rfl⟩

theorem buildGroupAggsPlan_ok_cases (ff bo cs : Bool)
    (accs : List AccumulationStatement) (plan : GroupAggsPlan)
    (hok : buildGroupAggsPlan ff bo cs accs = .ok plan) :
    (plan.useBlockHashAgg = true ∧
      tryToUseBlockHashAgg ff bo cs accs = true ∧
      (∃ bev, generateAllAccumBlockExprs accs = some bev ∧
        plan.blockAccExprs = bev) ∧
      generateAllAccumAggs true accs = .ok (some plan.sbAggExprs)) ∨
    (plan.useBlockHashAgg = false ∧ plan.blockAccExprs = [] ∧
      generateAllAccumAggs false accs = .ok (some plan.sbAggExprs)) := by
  unfold buildGroupAggsPlan at hok
  by_cases htb : tryToUseBlockHashAgg ff bo cs accs
  · simp only [htb, if_true] at hok
    cases hbe : generateAllAccumBlockExprs accs with
    | none =>
      rw [hbe] at hok
      exact Or.inr (rowModeAggsPlan_ok hok)
    | some bev =>
      rw [hbe] at hok
      cases hga : generateAllAccumAggs true accs with
      | error e => rw [hga] at hok; simp at hok
      | ok r =>
        rw [hga] at hok
        cases r with
        | none => exact Or.inr (rowModeAggsPlan_ok hok)
        | some aggs =>
          by_cases hnull :
              aggs.any (fun v => v.any (fun e => e.blockAgg.isNone))
          · simp only [hnull, if_true] at hok
            simp at hok
          · simp only [hnull, if_false] at hok
            have hp : plan = ⟨true, aggs, bev⟩ := by
              simpa using hok.symm
            subst hp
            exact Or.inl ⟨rfl, htb, ⟨bev, rfl, rfl⟩, rfl⟩
  · have htb' : tryToUseBlockHashAgg ff bo cs accs = false := by
      simpa using htb
    simp only [htb', Bool.false_eq_true, if_false] at hok
    exact Or.inr (rowModeAggsPlan_ok hok)

/-- C2: the BlockHashAgg (columnar) variant is used only when the columnar
attempt was admissible (block child output, no variable initializer, no
collation override, every accumulator reports support for both block forms);
and whenever building the block argument expressions or the block agg
expressions fails for any single accumulator, the whole stage is compiled in
row mode: the block argument expressions are discarded and every
accumulator's agg expressions are the scalar ones (null `blockAgg`). -/
theorem c2_blockHashAgg_allOrNothing (ff bo cs : Bool)
    (accs : List AccumulationStatement) (plan : GroupAggsPlan)
    (hok : buildGroupAggsPlan ff bo cs accs = .ok plan) :
    (plan.useBlockHashAgg = true →
      bo = true ∧ hasVariableGroupInit accs = false ∧ cs = false ∧
      canBuildBlockExprsAndBlockAggs accs = true) ∧
    ((∃ a ∈ accs, a.op.addBlockExprsOk = false ∨ a.op.addBlockAggs = none) →
      plan.useBlockHashAgg = false ∧ plan.blockAccExprs = [] ∧
      ∀ l ∈ plan.sbAggExprs, ∀ e ∈ l, e.blockAgg = none) := by
  rcases buildGroupAggsPlan_ok_cases ff bo cs accs plan hok with
    ⟨hub, htb, ⟨bev, hbe, _⟩, hga⟩ | ⟨hub, hbl, hga⟩
  · constructor
    · intro _
      have := htb
      unfold tryToUseBlockHashAgg at this
      simp only [Bool.and_eq_true, Bool.not_eq_true'] at this
      exact ⟨this.1.1.1.2, this.1.1.2, this.1.2, this.2⟩
    · rintro ⟨a, ha, hfail | hfail⟩
      · have := generateAllAccumBlockExprs_ok_forall hbe a ha
        rw [hfail] at this
        exact absurd this (by simp)
      · exact absurd hfail (generateAllAccumAggs_true_ok_forall hga a ha)
  · constructor
    · intro hcontra
      rw [hub] at hcontra
      exact absurd hcontra (by simp)
    · intro _
      exact ⟨hub, hbl, generateAllAccumAggs_false_rowOnly hga⟩

/-- Witness for C2: the theorem applied to a concrete group with a `$min`
accumulator (full block support) and a `$avg` accumulator (no block aggregate
support): the plan is row-mode with no vectorized accumulator. -/
theorem c2_blockHashAgg_allOrNothing_witness :
    (∃ plan, buildGroupAggsPlan true true false [minStmt, avgStmt]
        = .ok plan ∧
      (∃ a ∈ [minStmt, avgStmt],
        a.op.addBlockExprsOk = false ∨ a.op.addBlockAggs = none) ∧
      plan.useBlockHashAgg = false ∧ plan.blockAccExprs = [] ∧
      ∀ l ∈ plan.sbAggExprs, ∀ e ∈ l, e.blockAgg = none) := by
  have hfail : ∃ a ∈ [minStmt, avgStmt],
      a.op.addBlockExprsOk = false ∨ a.op.addBlockAggs = none :=
    ⟨avgStmt, by simp, Or.inr (by simp [avgStmt, avgOp])⟩
  have hok : buildGroupAggsPlan true true false [minStmt, avgStmt]
      = .ok ⟨false,
        [[⟨SbExpr.constant Value.null, none,
            SbExpr.func "min" [SbExpr.slotRef 100]⟩],
         [⟨SbExpr.constant Value.null, none,
            SbExpr.func "sum" [SbExpr.slotRef 101]⟩,
          ⟨SbExpr.constant (Value.num 0), none,
            SbExpr.func "sum" [SbExpr.constant (Value.num 1)]⟩]], []⟩ := by
    simp [buildGroupAggsPlan, tryToUseBlockHashAgg, hasVariableGroupInit,
      canBuildBlockExprsAndBlockAggs, rowModeAggsPlan, generateAllAccumExprs,
      generateAllAccumAggs, generateAccumAggs, minStmt, avgStmt, minOp, avgOp]
  refine ⟨_, hok, hfail, ?_⟩
  exact (c2_blockHashAgg_allOrNothing true true false [minStmt, avgStmt]
    _ hok).2 hfail

/-! ### C6: the Path Expression Materializer -/

theorem projectFieldPaths_stage (s : StageBuilderState) (st : List StageOp)
    (o : PlanStageSlots) (gm : List (String × FieldPathInfo)) :
    (projectFieldPathsToPathExprSlots s st o gm).2.1
      = st ++ (if gm.isEmpty then []
               else [StageOp.project (gm.map (fun p => p.1))]) ∧
    (projectFieldPathsToPathExprSlots s st o gm).2.2.hasBlockOutput
      = o.hasBlockOutput ∧
    (projectFieldPathsToPathExprSlots s st o gm).2.2.fieldIsBlock
      = o.fieldIsBlock := by
  by_cases h : gm.isEmpty <;>
    simp [projectFieldPathsToPathExprSlots, h]

theorem foldl_pathUpdate_preserve
    (ps : List ((String × FieldPathInfo) × SlotId))
    (m0 : String → Option SlotId) (k : String) (h : m0 k ≠ none) :
    (ps.foldl (fun m p => fun x => if x = p.1.1 then some p.2 else m x) m0) k
      ≠ none := by
  induction ps generalizing m0 with
  | nil => exact h
  | cons p rest ih =>
    rw [List.foldl_cons]
    apply ih
    by_cases hk : k = p.1.1 <;> simp [hk, h]

theorem foldl_pathUpdate_mem
    (ps : List ((String × FieldPathInfo) × SlotId))
    (m0 : String → Option SlotId) (k : String)
    (h : k ∈ ps.map (fun p => p.1.1)) :
    (ps.foldl (fun m p => fun x => if x = p.1.1 then some p.2 else m x) m0) k
      ≠ none := by
  induction ps generalizing m0 with
  | nil => simp at h
  | cons p rest ih =>
    rw [List.foldl_cons]
    rw [List.map_cons] at h
    rcases List.mem_cons.mp h with hk | hk
    · apply foldl_pathUpdate_preserve
      simp [hk]
    · exact ih _ hk

theorem projectFieldPaths_resolves (s : StageBuilderState)
    (st : List StageOp) (o : PlanStageSlots)
    (gm : List (String × FieldPathInfo)) (k : String)
    (hk : k ∈ gm.map (fun p => p.1)) :
    (projectFieldPathsToPathExprSlots s st o gm).2.2.pathExprSlots k
      ≠ none := by
  have hne : gm.isEmpty = false := by
    cases gm with
    | nil => simp at hk
    | cons a l => rfl
  unfold projectFieldPathsToPathExprSlots
  simp only [hne, Bool.false_eq_true, if_false]
  apply foldl_pathUpdate_mem
  have hlen : ((List.range gm.length).map (fun i => s.nextSlotId + i)).length
      = gm.length := by simp
  have hfst : (gm.zip ((List.range gm.length).map
      (fun i => s.nextSlotId + i))).map Prod.fst = gm :=
    List.map_fst_zip _ _ (by rw [hlen])
  have : (gm.zip ((List.range gm.length).map
      (fun i => s.nextSlotId + i))).map (fun p => p.1.1)
      = gm.map (fun p => p.1) := by
    rw [show (fun p : (String × FieldPathInfo) × SlotId => p.1.1)
        = (fun q : String × FieldPathInfo => q.1) ∘ Prod.fst from rfl]
    rw [← List.map_map, hfst]
  rw [this]
  exact hk

theorem projectFieldPaths_preserves (s : StageBuilderState)
    (st : List StageOp) (o : PlanStageSlots)
    (gm : List (String × FieldPathInfo)) (k : String)
    (h : o.pathExprSlots k ≠ none) :
    (projectFieldPathsToPathExprSlots s st o gm).2.2.pathExprSlots k
      ≠ none := by
  by_cases hne : gm.isEmpty
  · simpa [projectFieldPathsToPathExprSlots, hne] using h
  · unfold projectFieldPathsToPathExprSlots
    simp only [hne, Bool.false_eq_true, if_false]
    exact foldl_pathUpdate_preserve _ _ _ h

/-- C6: in block mode with a non-empty path-expression cache, the scalar-backed
paths are projected first; the pipeline is converted from block to row form
only when at least one referenced path is block-backed, and those paths are
projected after the conversion; when no referenced path is block-backed the
block pipeline is left open.  In all modes, afterwards every cached field path
resolves to a slot. -/
theorem c6_makePathExprsAvailable (state : StageBuilderState)
    (stage : List StageOp) (outputs : PlanStageSlots)
    (m : List (String × FieldPathInfo)) :
    (outputs.hasBlockOutput = true → m.isEmpty = false →
      ((partitionFieldPathExprsByBlock outputs m).1.isEmpty = true →
        (makePathExprsAvailableInSlots state stage outputs m).2.2.hasBlockOutput
          = true ∧
        (makePathExprsAvailableInSlots state stage outputs m).2.1
          = stage ++
            (if (partitionFieldPathExprsByBlock outputs m).2.isEmpty then []
             else [StageOp.project
               ((partitionFieldPathExprsByBlock outputs m).2.map
                 (fun p => p.1))])) ∧
      ((partitionFieldPathExprsByBlock outputs m).1.isEmpty = false →
        (makePathExprsAvailableInSlots state stage outputs m).2.2.hasBlockOutput
          = false ∧
        (makePathExprsAvailableInSlots state stage outputs m).2.1
          = stage ++
            (if (partitionFieldPathExprsByBlock outputs m).2.isEmpty then []
             else [StageOp.project
               ((partitionFieldPathExprsByBlock outputs m).2.map
                 (fun p => p.1))]) ++
            [StageOp.blockToRow,
             StageOp.project
               ((partitionFieldPathExprsByBlock outputs m).1.map
                 (fun p => p.1))])) ∧
    (∀ k ∈ m.map (fun p => p.1),
      (makePathExprsAvailableInSlots state stage outputs m).2.2.pathExprSlots k
        ≠ none) := by
  constructor
  · intro hb hm
    constructor
    · intro hbe
      have hred : makePathExprsAvailableInSlots state stage outputs m
          = projectFieldPathsToPathExprSlots state stage outputs
              (partitionFieldPathExprsByBlock outputs m).2 := by
        unfold makePathExprsAvailableInSlots
        simp only [hm, Bool.false_eq_true, if_false, hb, if_true, hbe]
      rw [hred]
      obtain ⟨hst, hbo, _⟩ := projectFieldPaths_stage state stage outputs
        (partitionFieldPathExprsByBlock outputs m).2
      exact ⟨by rw [hbo, hb], hst⟩
    · intro hbe
      have hred : makePathExprsAvailableInSlots state stage outputs m
          = (let step1 := projectFieldPathsToPathExprSlots state stage outputs
               (partitionFieldPathExprsByBlock outputs m).2
             let step2 := buildBlockToRow step1.2.1 step1.2.2
             projectFieldPathsToPathExprSlots step1.1 step2.1 step2.2
               (partitionFieldPathExprsByBlock outputs m).1) := by
        unfold makePathExprsAvailableInSlots
        simp only [hm, Bool.false_eq_true, if_false, hb, if_true, hbe]
      rw [hred]
      obtain ⟨hst1, _, _⟩ := projectFieldPaths_stage state stage outputs
        (partitionFieldPathExprsByBlock outputs m).2
      obtain ⟨hst2, hbo2, _⟩ := projectFieldPaths_stage
        (projectFieldPathsToPathExprSlots state stage outputs
          (partitionFieldPathExprsByBlock outputs m).2).1
        (buildBlockToRow
          (projectFieldPathsToPathExprSlots state stage outputs
            (partitionFieldPathExprsByBlock outputs m).2).2.1
          (projectFieldPathsToPathExprSlots state stage outputs
            (partitionFieldPathExprsByBlock outputs m).2).2.2).1
        (buildBlockToRow
          (projectFieldPathsToPathExprSlots state stage outputs
            (partitionFieldPathExprsByBlock outputs m).2).2.1
          (projectFieldPathsToPathExprSlots state stage outputs
            (partitionFieldPathExprsByBlock outputs m).2).2.2).2
        (partitionFieldPathExprsByBlock outputs m).1
      refine ⟨?_, ?_⟩
      · rw [hbo2]
        rfl
      · rw [hst2]
        simp only [buildBlockToRow, hst1, hbe, Bool.false_eq_true, if_false]
        simp [List.append_assoc]
  · intro k hk
    by_cases hm : m.isEmpty
    · rw [List.isEmpty_iff.mp hm] at hk
      simp at hk
    · have hm' : m.isEmpty = false := by simpa using hm
      by_cases hb : outputs.hasBlockOutput
      · rcases List.mem_map.mp hk with ⟨p, hp, hpk⟩
        by_cases hpb : doesExpressionReferenceBlock outputs p.2
        · -- p is block-backed: it is in the block partition, which is
          -- therefore non-empty; the final project resolves it.
          have hpmem : p ∈ (partitionFieldPathExprsByBlock outputs m).1 :=
            List.mem_filter.mpr ⟨hp, by simpa using hpb⟩
          have hbe : (partitionFieldPathExprsByBlock outputs m).1.isEmpty
              = false := by
            cases hc : (partitionFieldPathExprsByBlock outputs m).1 with
            | nil => rw [hc] at hpmem; simp at hpmem
            | cons a l => rfl
          have hred : makePathExprsAvailableInSlots state stage outputs m
              = (let step1 := projectFieldPathsToPathExprSlots state stage
                   outputs (partitionFieldPathExprsByBlock outputs m).2
                 let step2 := buildBlockToRow step1.2.1 step1.2.2
                 projectFieldPathsToPathExprSlots step1.1 step2.1 step2.2
                   (partitionFieldPathExprsByBlock outputs m).1) := by
            unfold makePathExprsAvailableInSlots
            simp only [hm', Bool.false_eq_true, if_false, hb, if_true, hbe]
          rw [hred]
          apply projectFieldPaths_resolves
          rw [← hpk]
          exact List.mem_map_of_mem _ hpmem
        · -- p is scalar-backed: the first project resolves it, and the later
          -- steps preserve the binding.
          have hpmem : p ∈ (partitionFieldPathExprsByBlock outputs m).2 :=
            List.mem_filter.mpr ⟨hp, by simpa using hpb⟩
          have hres1 : (projectFieldPathsToPathExprSlots state stage outputs
              (partitionFieldPathExprsByBlock outputs m).2).2.2.pathExprSlots k
              ≠ none := by
            apply projectFieldPaths_resolves
            rw [← hpk]
            exact List.mem_map_of_mem _ hpmem
          by_cases hbe : (partitionFieldPathExprsByBlock outputs m).1.isEmpty
          · have hred : makePathExprsAvailableInSlots state stage outputs m
                = projectFieldPathsToPathExprSlots state stage outputs
                    (partitionFieldPathExprsByBlock outputs m).2 := by
              unfold makePathExprsAvailableInSlots
              simp only [hm', Bool.false_eq_true, if_false, hb, if_true, hbe]
            rw [hred]
            exact hres1
          · have hbe' : (partitionFieldPathExprsByBlock outputs m).1.isEmpty
                = false := by simpa using hbe
            have hred : makePathExprsAvailableInSlots state stage outputs m
                = (let step1 := projectFieldPathsToPathExprSlots state stage
                     outputs (partitionFieldPathExprsByBlock outputs m).2
                   let step2 := buildBlockToRow step1.2.1 step1.2.2
                   projectFieldPathsToPathExprSlots step1.1 step2.1 step2.2
                     (partitionFieldPathExprsByBlock outputs m).1) := by
              unfold makePathExprsAvailableInSlots
              simp only [hm', Bool.false_eq_true, if_false, hb, if_true, hbe']
            rw [hred]
            apply projectFieldPaths_preserves
            exact hres1
      · have hb' : outputs.hasBlockOutput = false := by simpa using hb
        have hred : makePathExprsAvailableInSlots state stage outputs m
            = projectFieldPathsToPathExprSlots state stage outputs m := by
          unfold makePathExprsAvailableInSlots
          simp only [hm', Bool.false_eq_true, if_false, hb']
        rw [hred]
        exact projectFieldPaths_resolves state stage outputs m k hk

/-- Witness for C6: the theorem applied to a block-mode pipeline with one
block-backed and one scalar-backed path: the block pipeline is closed, and
the block-backed path `t.x` resolves to a slot. -/
theorem c6_makePathExprsAvailable_witness :
    sampleBlockOutputs.hasBlockOutput = true ∧
    sampleFieldPathMap.isEmpty = false ∧
    (partitionFieldPathExprsByBlock sampleBlockOutputs
      sampleFieldPathMap).1.isEmpty = false ∧
    "t.x" ∈ sampleFieldPathMap.map (fun p => p.1) ∧
    (makePathExprsAvailableInSlots ⟨false, 50⟩ [] sampleBlockOutputs
      sampleFieldPathMap).2.2.hasBlockOutput = false ∧
    (makePathExprsAvailableInSlots ⟨false, 50⟩ [] sampleBlockOutputs
      sampleFieldPathMap).2.2.pathExprSlots "t.x" ≠ none := by
  have hb : sampleBlockOutputs.hasBlockOutput = true := rfl
  have hm : sampleFieldPathMap.isEmpty = false := rfl
  have hbe : (partitionFieldPathExprsByBlock sampleBlockOutputs
      sampleFieldPathMap).1.isEmpty = false := by
    simp [partitionFieldPathExprsByBlock, sampleFieldPathMap,
      sampleBlockOutputs, doesExpressionReferenceBlock]
  have hk : "t.x" ∈ sampleFieldPathMap.map (fun p => p.1) := by
    simp [sampleFieldPathMap]
  refine ⟨hb, hm, hbe, hk, ?_, ?_⟩
  · exact (((c6_makePathExprsAvailable ⟨false, 50⟩ [] sampleBlockOutputs
      sampleFieldPathMap).1 hb hm).2 hbe).1
  · exact (c6_makePathExprsAvailable ⟨false, 50⟩ [] sampleBlockOutputs
      sampleFieldPathMap).2 "t.x" hk

/-! ### C7: the parallel-arrays guard -/

/-- C7: for an order-sensitive accumulator whose sort-key plan traverses
fields independently and whose sort-key build produces a parallel-arrays
check, compilation succeeds and returns the sort key wrapped in a conditional
whose else branch is `Fail(BadValue, "cannot sort with keys that are parallel
arrays")`; at runtime the guard selects the sort key when the check passes and
raises the BadValue error only when the check fails on the input. -/
theorem c7_parallelArraysGuard
    (mkPlan : SortPattern → SortKeysPlan)
    (bSortKeys : SortKeysPlan → SortPattern → SbExpr → SortKeys)
    (accStmt : AccumulationStatement) (sortSpecExpr : SbExpr)
    (sp : SortPattern) (check : SbExpr)
    (hsp : accStmt.sortPattern = some sp)
    (htype : (mkPlan sp).type = .kTraverseFields)
    (hlen : 1 ≤ sp.parts.length)
    (hcheck : (bSortKeys (mkPlan sp) sp sortSpecExpr).parallelArraysCheckExpr
        = some check) :
    getTopBottomNSortByExpr mkPlan bSortKeys accStmt sortSpecExpr
      = .ok (SbExpr.eif check
          (if sp.parts.length = 1 then
            (bSortKeys (mkPlan sp) sp sortSpecExpr).keyExprs.headD
              (SbExpr.func "newArray" [])
           else SbExpr.func "newArray"
              (bSortKeys (mkPlan sp) sp sortSpecExpr).keyExprs)
          (SbExpr.fail badValueCode
            "cannot sort with keys that are parallel arrays")) ∧
    (∀ (env : EvalEnv) (thn : SbExpr),
      (check.eval env = .ok (Value.bool true) →
        (SbExpr.eif check thn (SbExpr.fail badValueCode
          "cannot sort with keys that are parallel arrays")).eval env
          = thn.eval env) ∧
      (check.eval env = .ok (Value.bool false) →
        (SbExpr.eif check thn (SbExpr.fail badValueCode
          "cannot sort with keys that are parallel arrays")).eval env
          = .error (badValueCode,
              "cannot sort with keys that are parallel arrays"))) := by
  constructor
  · unfold getTopBottomNSortByExpr
    rw [hsp]
    dsimp only
    rw [htype]
    dsimp only
    rw [if_neg (by omega)]
    rw [hcheck]
  · intro env thn
    constructor <;> intro hc <;> simp [SbExpr.eval, hc]

/-- Witness for C7: the theorem applied to the sample `$top`-like statement,
with concrete sort-key planning externals and a concrete runtime environment
in which the parallel-arrays check fails. -/
theorem c7_parallelArraysGuard_witness :
    topBottomStmt.sortPattern = some ⟨[("a", true)]⟩ ∧
    ((fun _ => (⟨.kTraverseFields, [], false⟩ : SortKeysPlan))
        (⟨[("a", true)]⟩ : SortPattern)).type = .kTraverseFields ∧
    1 ≤ (⟨[("a", true)]⟩ : SortPattern).parts.length ∧
    ((fun _ _ _ => (⟨[SbExpr.slotRef 5],
        some (SbExpr.constant (Value.bool false)),
        SbExpr.constant Value.null⟩ : SortKeys)) (⟨.kTraverseFields, [],
        false⟩ : SortKeysPlan) (⟨[("a", true)]⟩ : SortPattern)
        (SbExpr.slotRef 9)).parallelArraysCheckExpr
      = some (SbExpr.constant (Value.bool false)) ∧
    getTopBottomNSortByExpr
        (fun _ => ⟨.kTraverseFields, [], false⟩)
        (fun _ _ _ => ⟨[SbExpr.slotRef 5],
          some (SbExpr.constant (Value.bool false)),
          SbExpr.constant Value.null⟩)
        topBottomStmt (SbExpr.slotRef 9)
      = .ok (SbExpr.eif (SbExpr.constant (Value.bool false))
          (SbExpr.slotRef 5)
          (SbExpr.fail badValueCode
            "cannot sort with keys that are parallel arrays")) ∧
    (SbExpr.eif (SbExpr.constant (Value.bool false)) (SbExpr.slotRef 5)
        (SbExpr.fail badValueCode
          "cannot sort with keys that are parallel arrays")).eval
        ⟨fun _ => Value.num 0, fun _ _ => .ok Value.null⟩
      = .error (badValueCode,
          "cannot sort with keys that are parallel arrays") := by
  have hsp : topBottomStmt.sortPattern = some ⟨[("a", true)]⟩ := rfl
  have h := c7_parallelArraysGuard
    (fun _ => ⟨.kTraverseFields, [], false⟩)
    (fun _ _ _ => ⟨[SbExpr.slotRef 5],
      some (SbExpr.constant (Value.bool false)),
      SbExpr.constant Value.null⟩)
    topBottomStmt (SbExpr.slotRef 9) ⟨[("a", true)]⟩
    (SbExpr.constant (Value.bool false)) hsp rfl (by simp) rfl
  refine ⟨hsp, rfl, by simp, rfl, ?_, ?_⟩
  · simpa using h.1
  · exact (h.2 ⟨fun _ => Value.num 0, fun _ _ => .ok Value.null⟩
      (SbExpr.slotRef 5)).2 (by simp [SbExpr.eval])

/-! ### C9: output-field bindings of `buildGroup` -/

theorem foldl_setSlot_not_mem (ps : List (String × SlotId)) :
    ∀ (m : SlotMap) (x : String), (∀ p ∈ ps, p.1 ≠ x) →
      ps.foldl (fun m p => setSlot m p.1 p.2) m x = m x := by
  induction ps with
  | nil => intro m x _; rfl
  | cons p rest ih =>
    intro m x h
    rw [List.foldl_cons]
    rw [ih _ x (fun q hq => h q (by simp [hq]))]
    have hne : x ≠ p.1 := fun he => h p (by simp) he.symm
    simp [setSlot, hne]

theorem foldl_setSlot_zip_get (names : List String) :
    ∀ (slots : List SlotId), names.Nodup →
      ∀ (hlen : names.length = slots.length) (m : SlotMap) (i : Nat)
        (hi : i < names.length),
      (names.zip slots).foldl (fun m p => setSlot m p.1 p.2) m
          (names.get ⟨i, hi⟩)
        = some (slots.get ⟨i, hlen ▸ hi⟩) := by
  induction names with
  | nil => intro slots _ hlen m i hi; simp at hi
  | cons n ns ih =>
    intro slots hnd hlen m i hi
    cases slots with
    | nil => simp at hlen
    | cons s ss =>
      rw [List.zip_cons_cons, List.foldl_cons]
      cases i with
      | zero =>
        have hkeys : ∀ p ∈ ns.zip ss, p.1 ≠ (n :: ns).get ⟨0, hi⟩ := by
          intro p hp heq
          have hmem := (List.of_mem_zip hp).1
          rw [heq] at hmem
          exact (List.nodup_cons.mp hnd).1 hmem
        rw [foldl_setSlot_not_mem _ _ _ hkeys]
        simp [setSlot]
      | succ j =>
        have hi' : j < ns.length := by simpa using hi
        have hlen' : ns.length = ss.length := by simpa using hlen
        have := ih ss (List.nodup_cons.mp hnd).2 hlen' (setSlot m n s) j hi'
        simpa using this

theorem reqFold_stable (fieldNames : List String) (nothingSlot : SlotId)
    (reqFields : List (List String)) :
    ∀ (m : SlotMap) (x : String), m x = some nothingSlot →
      reqFields.foldl
        (fun m path =>
          if fieldNames.contains (getTopLevelField path) then m
          else setSlot m (String.intercalate "." path) nothingSlot) m x
        = some nothingSlot := by
  induction reqFields with
  | nil => intro m x h; exact h
  | cons p rest ih =>
    intro m x h
    rw [List.foldl_cons]
    by_cases hc : fieldNames.contains (getTopLevelField p)
    · rw [if_pos hc]; exact ih m x h
    · rw [if_neg hc]
      apply ih
      by_cases hx : x = String.intercalate "." p <;> simp [setSlot, hx, h]

theorem reqFold_preserve (fieldNames : List String) (nothingSlot : SlotId)
    (reqFields : List (List String)) :
    ∀ (m : SlotMap) (x : String),
      (∀ path ∈ reqFields, String.intercalate "." path = x →
        fieldNames.contains (getTopLevelField path) = true) →
      reqFields.foldl
        (fun m path =>
          if fieldNames.contains (getTopLevelField path) then m
          else setSlot m (String.intercalate "." path) nothingSlot) m x
        = m x := by
  induction reqFields with
  | nil => intro m x _; rfl
  | cons p rest ih =>
    intro m x hx
    rw [List.foldl_cons]
    by_cases hc : fieldNames.contains (getTopLevelField p)
    · rw [if_pos hc]; exact ih m x (fun q hq => hx q (by simp [hq]))
    · rw [if_neg hc]
      rw [ih _ x (fun q hq => hx q (by simp [hq]))]
      have hne : x ≠ String.intercalate "." p := by
        intro he
        have := hx p (by simp) he.symm
        rw [this] at hc
        exact hc rfl
      simp [setSlot, hne]

theorem reqFold_set (fieldNames : List String) (nothingSlot : SlotId)
    (reqFields : List (List String)) :
    ∀ (m : SlotMap) (x : String),
      (∃ path ∈ reqFields, String.intercalate "." path = x ∧
        fieldNames.contains (getTopLevelField path) = false) →
      reqFields.foldl
        (fun m path =>
          if fieldNames.contains (getTopLevelField path) then m
          else setSlot m (String.intercalate "." path) nothingSlot) m x
        = some nothingSlot := by
  induction reqFields with
  | nil => intro m x h; simp at h
  | cons p rest ih =>
    intro m x h
    rw [List.foldl_cons]
    rcases h with ⟨path, hmem, hjoin, hcond⟩
    rcases List.mem_cons.mp hmem with rfl | hmem'
    · rw [if_neg (by rw [hcond]; exact Bool.false_ne_true)]
      apply reqFold_stable
      simp [setSlot, hjoin.symm]
    · by_cases hc : fieldNames.contains (getTopLevelField p)
      · rw [if_pos hc]
        exact ih m x ⟨path, hmem', hjoin, hcond⟩
      · rw [if_neg hc]
        exact ih _ x ⟨path, hmem', hjoin, hcond⟩

/-- C9: every parent-requested top-level field that is neither `_id` nor an
accumulator output field is bound to the `Nothing` marker slot, while `_id`
and every accumulator output field are bound to their corresponding final
slots.  The no-shadowing hypothesis rules out a requested dotted path whose
joined name collides with an output field name. -/
theorem c9_requestedFields_bindings (accFieldNames : List String)
    (finalSlots : List SlotId) (reqFields : List (List String))
    (nothingSlot : SlotId)
    (hnd : ("_id" :: accFieldNames).Nodup)
    (hlen : ("_id" :: accFieldNames).length = finalSlots.length)
    (hnoshadow : ∀ path ∈ reqFields,
      ("_id" :: accFieldNames).contains (getTopLevelField path) = false →
      String.intercalate "." path ∉ ("_id" :: accFieldNames)) :
    (∀ f : String, [f] ∈ reqFields → f ∉ ("_id" :: accFieldNames) →
      bindGroupOutputFields ("_id" :: accFieldNames) finalSlots reqFields
        nothingSlot f = some nothingSlot) ∧
    (∀ i (hi : i < ("_id" :: accFieldNames).length),
      bindGroupOutputFields ("_id" :: accFieldNames) finalSlots reqFields
        nothingSlot (("_id" :: accFieldNames).get ⟨i, hi⟩)
        = some (finalSlots.get ⟨i, hlen ▸ hi⟩)) := by
  constructor
  · intro f hmem hnotin
    unfold bindGroupOutputFields
    apply reqFold_set
    refine ⟨[f], hmem, rfl, ?_⟩
    simpa [getTopLevelField] using hnotin
  · intro i hi
    unfold bindGroupOutputFields
    rw [reqFold_preserve]
    · exact foldl_setSlot_zip_get ("_id" :: accFieldNames) finalSlots hnd
        hlen _ i hi
    · intro path hpath hjoin
      by_cases hc : ("_id" :: accFieldNames).contains (getTopLevelField path)
      · exact hc
      · have hc' : ("_id" :: accFieldNames).contains (getTopLevelField path)
            = false := by simpa using hc
        have := hnoshadow path hpath hc'
        rw [hjoin] at this
        exact absurd (List.get_mem _ _ _) this

/-- Witness for C9: the theorem applied to output fields `_id`, `x` with
final slots 10, 11, requested fields `y` and `a.b`, and `Nothing` slot 99. -/
theorem c9_requestedFields_bindings_witness :
    ([["y"], ["a", "b"]] : List (List String)).contains ["y"] = true ∧
    ("y" ∉ ["_id", "x"]) ∧
    bindGroupOutputFields ["_id", "x"] [10, 11] [["y"], ["a", "b"]] 99 "y"
      = some 99 ∧
    bindGroupOutputFields ["_id", "x"] [10, 11] [["y"], ["a", "b"]] 99 "_id"
      = some 10 ∧
    bindGroupOutputFields ["_id", "x"] [10, 11] [["y"], ["a", "b"]] 99 "x"
      = some 11 := by
  have hnd : (["_id", "x"] : List String).Nodup := by decide
  have hlen : (["_id", "x"] : List String).length
      = ([10, 11] : List SlotId).length := rfl
  have hnoshadow : ∀ path ∈ ([["y"], ["a", "b"]] : List (List String)),
      (["_id", "x"] : List String).contains (getTopLevelField path) = false →
      String.intercalate "." path ∉ (["_id", "x"] : List String) := by
    intro path hpath
    rcases List.mem_cons.mp hpath with rfl | hpath'
    · intro _; decide
    · have : path = ["a", "b"] := by simpa using hpath'
      subst this
      intro _; decide
  have h := c9_requestedFields_bindings ["x"] [10, 11] [["y"], ["a", "b"]]
    99 hnd hlen hnoshadow
  refine ⟨by decide, by decide, ?_, ?_, ?_⟩
  · exact h.1 "y" (by simp) (by decide)
  · have := h.2 0 (by simp)
    simpa using this
  · have := h.2 1 (by simp)
    simpa using this

end GenGroup
